import Mathlib

/-!
# Pump affinity converter — verification development

Shallow embedding of the three Streamlit variant scripts
(`app_streamlit.py`, `app_streamlit1.py`, `app_streamlit3.py`).

Numeric model: pandas/numpy float64 values are modelled by `FVal`, an
exact-rational idealization extended with the IEEE-754 special values
`inf`, `ninf` and `nan` (finite arithmetic is exact; rounding, overflow
and the sign of zero are not modelled — no claim below depends on them;
decimal literals such as `0.0001409` are modelled by the exact rational
they denote).  Multiplication and division on `FVal` follow the IEEE
special-value rules used by numpy/pandas column arithmetic, which never
raises: division by zero produces `inf`/`ninf`/`nan`.
-/

/-- Model of a float64 value: a finite rational or an IEEE special value. -/
inductive FVal where
  | nan : FVal
  | inf : FVal
  | ninf : FVal
  | fin : ℚ → FVal
deriving DecidableEq

namespace FVal

/-- IEEE-style multiplication (numpy elementwise `*`). -/
def fmul : FVal → FVal → FVal
  | nan, _ => nan
  | _, nan => nan
  | inf, inf => inf
  | inf, ninf => ninf
  | ninf, inf => ninf
  | ninf, ninf => inf
  | inf, fin q => if q = 0 then nan else if 0 < q then inf else ninf
  | fin q, inf => if q = 0 then nan else if 0 < q then inf else ninf
  | ninf, fin q => if q = 0 then nan else if 0 < q then ninf else inf
  | fin q, ninf => if q = 0 then nan else if 0 < q then ninf else inf
  | fin a, fin b => fin (a * b)

/-- IEEE-style division (numpy elementwise `/`): division of a nonzero
finite value by zero gives a signed infinity, `0 / 0` gives `nan`
(the sign of zero is not modelled, so the infinity produced for a
negative denominator-zero is keyed to the numerator's sign only;
no claim depends on the sign of a non-finite result). -/
def fdiv : FVal → FVal → FVal
  | nan, _ => nan
  | _, nan => nan
  | inf, inf => nan
  | inf, ninf => nan
  | ninf, inf => nan
  | ninf, ninf => nan
  | inf, fin q => if 0 ≤ q then inf else ninf
  | ninf, fin q => if 0 ≤ q then ninf else inf
  | fin _, inf => fin 0
  | fin _, ninf => fin 0
  | fin a, fin b =>
      if b = 0 then (if a = 0 then nan else if 0 < a then inf else ninf)
      else fin (a / b)

/-- Python `**` on a float with a natural exponent, as iterated product
(`x ** 0 = 1.0`, matching Python). -/
def fpow (x : FVal) : Nat → FVal
  | 0 => fin 1
  | n + 1 => fmul (fpow x n) x

/-- A value is finite when it is neither `nan` nor an infinity. -/
def isFinite : FVal → Bool
  | fin _ => true
  | _ => false

end FVal

/-!
## Cell grids

`pd.read_excel(..., header=None)` yields a rectangular 2-D frame of
cells: blank cells become NaN, numeric cells become floats, text cells
stay strings.  A `Cell.str` carries `some q` when the string is
float-parseable (pandas `astype(float)` converts such strings) and
`none` otherwise.  Short rows are padded with blanks up to the widest
row, exactly as pandas pads a ragged sheet with NaN.
-/

/-- One spreadsheet cell as surfaced by `pd.read_excel(header=None)`. -/
inductive Cell where
  | blank : Cell
  | num : ℚ → Cell
  | str : Option ℚ → Cell
deriving DecidableEq

/-- The raw grid `df_raw` (row-major). -/
structure Grid where
  rows : List (List Cell)
deriving DecidableEq

namespace Grid

def nrows (g : Grid) : Nat := g.rows.length

/-- Number of columns of the frame: the widest row (pandas pads the rest). -/
def ncols (g : Grid) : Nat := g.rows.foldr (fun r m => max r.length m) 0

/-- Cell at a (0-based) position, with pandas' NaN padding for short rows. -/
def cellAt (g : Grid) (r c : Nat) : Cell := (g.rows.getD r []).getD c Cell.blank

/-- Column `c` of the frame, one entry per row. -/
def col (g : Grid) (c : Nat) : List Cell :=
  (List.range g.nrows).map (fun r => g.cellAt r c)

/-- `df_raw.iat[r, c]`: positional scalar access, negative indices count
from the end, out-of-bounds raises (modelled as `none`). -/
def iat (g : Grid) (r c : Int) : Option Cell :=
  let nr : Int := g.nrows
  let nc : Int := g.ncols
  let r' := if r < 0 then r + nr else r
  let c' := if c < 0 then c + nc else c
  if 0 ≤ r' ∧ r' < nr ∧ 0 ≤ c' ∧ c' < nc then some (g.cellAt r'.toNat c'.toNat)
  else none

end Grid

/-- `Series.dropna()`: remove blank (NaN) cells, keeping order. -/
def dropna (l : List Cell) : List Cell := l.filter (fun c => decide (c ≠ Cell.blank))

/-- `astype(float)` on one cell: NaN stays NaN, numbers convert, strings
convert when float-parseable and raise otherwise. -/
def cellToFloat : Cell → Except String FVal
  | Cell.blank => Except.ok FVal.nan
  | Cell.num q => Except.ok (FVal.fin q)
  | Cell.str (some q) => Except.ok (FVal.fin q)
  | Cell.str none => Except.error "could not convert string to float"

/-- `Series.astype(float)` over a list of cells: elementwise conversion,
failing at the first inconvertible element. -/
def astypeFloat : List Cell → Except String (List FVal)
  | [] => Except.ok []
  | c :: rest =>
      match cellToFloat c, astypeFloat rest with
      | Except.ok v, Except.ok vs => Except.ok (v :: vs)
      | Except.error e, _ => Except.error e
      | _, Except.error e => Except.error e

/-!
## Original-diameter cell-address resolution

Translates the body of the `if orig_cell:` block of
`read_uploaded_excel` (identical in `app_streamlit.py` and
`app_streamlit1.py`).  Python collects *every* alphabetic character and
*every* digit character of the address, wherever they occur; `int('')`
and `ord` on a non-single-character string raise, and the surrounding
`except Exception` turns any failure into `None` (Unset).
-/

/-- Parse a cell address the way the scripts do: filter the alphabetic
characters (must form exactly one letter, else `ord` raises) and the
digit characters (must be nonempty, else `int` raises); result is the
0-based `(row, column)` pair. -/
def parseAddr (s : String) : Option (Int × Int) :=
  let letters := s.toList.filter Char.isAlpha
  let digits := s.toList.filter Char.isDigit
  if digits = [] then none
  else
    let rowNumber : Nat := digits.foldl (fun acc ch => 10 * acc + (ch.toNat - '0'.toNat)) 0
    match letters with
    | [ch] => some ((rowNumber : Int) - 1, (ch.toUpper.toNat : Int) - ('A'.toNat : Int))
    | _ => none

/-- The original-OD extraction: `None` address or empty string skips the
block (Python truthiness); any parse failure, out-of-range lookup, blank
cell or unparseable text yields `none` (Unset) without raising. -/
def readOrig (g : Grid) (origCell : Option String) : Option ℚ :=
  match origCell with
  | none => none
  | some s =>
      if s = "" then none
      else
        match parseAddr s with
        | none => none
        | some (r, c) =>
            match g.iat r c with
            | none => none
            | some Cell.blank => none
            | some (Cell.num q) => some q
            | some (Cell.str (some q)) => some q
            | some (Cell.str none) => none

/-!
## DataFrames and the readers

A pandas DataFrame is modelled as an ordered association list from
column keys to columns.  `df[name] = value` replaces the column in
place when the name exists (keeping column order) and appends a new
column at the end otherwise, which is `setKV` below.
-/

/-- Column names appearing across the three variants.  The per-diameter
names carry the diameter because the scripts build them with f-strings
(`Flow_D{D}` …); two equal diameters give the same name, two distinct
floats give distinct names. -/
inductive ColKey where
  | flowOrig | headOrig | powerOrigKW
  | flowInput | headM | powerInputKW | effPct
  | flowD (d : ℚ) | headD (d : ℚ) | powerD (d : ℚ) | effD (d : ℚ)
deriving DecidableEq

/-- Ordered key-value update: replace in place when the key is present,
append otherwise (pandas column assignment / ExcelWriter sheet reuse). -/
def setKV {α β : Type} [DecidableEq α] (l : List (α × β)) (k : α) (v : β) :
    List (α × β) :=
  if l.any (fun p => decide (p.1 = k)) then
    l.map (fun p => if p.1 = k then (k, v) else p)
  else l ++ [(k, v)]

/-- Lookup of a key's value (first occurrence). -/
def getKV {α β : Type} [DecidableEq α] (l : List (α × β)) (k : α) : Option β :=
  (l.find? (fun p => decide (p.1 = k))).map Prod.snd

/-- A DataFrame: ordered columns of `FVal` entries. -/
abbrev DF := List (ColKey × List FVal)

/-- `df[k]` where the program only reads columns it created (pandas
would raise on a missing name; the default `[]` is never reached on
the frames the scripts build). -/
def dfGet (df : DF) (k : ColKey) : List FVal := (getKV df k).getD []

/-- `df[k] = v`. -/
def dfAssign (df : DF) (k : ColKey) (v : List FVal) : DF := setKV df k v

/-- Series `*` scalar, elementwise. -/
def colMulScalar (col : List FVal) (s : FVal) : List FVal :=
  col.map (fun x => FVal.fmul x s)

/-- `read_uploaded_excel`, auto-detect branch (identical in
`app_streamlit.py` and `app_streamlit1.py`): per column, rows from
index 1 down, `dropna`, `astype(float)`; truncate all three to the
minimum length.  Fewer than three columns makes `iloc[1:, 2]` raise. -/
def readAutoCols (g : Grid) : Except String DF :=
  if g.ncols < 3 then Except.error "positional indexer out of bounds"
  else
    match astypeFloat (dropna ((g.col 0).drop 1)) with
    | Except.error e => Except.error e
    | Except.ok flows =>
        match astypeFloat (dropna ((g.col 1).drop 1)) with
        | Except.error e => Except.error e
        | Except.ok heads =>
            match astypeFloat (dropna ((g.col 2).drop 1)) with
            | Except.error e => Except.error e
            | Except.ok powers =>
                let n := min flows.length (min heads.length powers.length)
                Except.ok [(ColKey.flowOrig, flows.take n),
                  (ColKey.headOrig, heads.take n),
                  (ColKey.powerOrigKW, powers.take n)]

/-- `read_uploaded_excel`, fixed-range branch: `df_raw.loc[1:5, c]` is
the label-inclusive slice — rows 1 through 5 where they exist — with no
`dropna`, then `astype(float)` (blank cells pass through as NaN). -/
def readFixedCols (g : Grid) : Except String DF :=
  if g.ncols < 3 then Except.error "positional indexer out of bounds"
  else
    match astypeFloat (((g.col 0).drop 1).take 5) with
    | Except.error e => Except.error e
    | Except.ok flows =>
        match astypeFloat (((g.col 1).drop 1).take 5) with
        | Except.error e => Except.error e
        | Except.ok heads =>
            match astypeFloat (((g.col 2).drop 1).take 5) with
            | Except.error e => Except.error e
            | Except.ok powers =>
                Except.ok [(ColKey.flowOrig, flows), (ColKey.headOrig, heads),
                  (ColKey.powerOrigKW, powers)]

/-- `read_uploaded_excel(file, auto_detect, orig_cell)`: the original-OD
cell is resolved first (exception-swallowing, soft fallback), then the
three data columns (whose failures propagate). -/
def read_uploaded_excel (g : Grid) (autoDetect : Bool) (origCell : Option String) :
    Except String (DF × Option ℚ) :=
  match (if autoDetect then readAutoCols g else readFixedCols g) with
  | Except.error e => Except.error e
  | Except.ok df => Except.ok (df, readOrig g origCell)

/-- The exact efficiency constant `0.0001409` of `app_streamlit3.py`
(decimal literal modelled as the rational it denotes). -/
def effConst : ℚ := 1409 / 10000000

/-- `(0.0001409 * F * H / P) * 100`, elementwise over aligned columns,
with the source's operator order `((c * F) * H) / P) * 100`. -/
def effCol (f h p : List FVal) : List FVal :=
  ((((f.map (fun x => FVal.fmul (FVal.fin effConst) x)).zipWith FVal.fmul h).zipWith
      FVal.fdiv p).map (fun x => FVal.fmul x (FVal.fin 100)))

/-- The upload branch of `app_streamlit3.py`: all three columns are read
from row index 0 (no header row is skipped: `df_in.iloc[:, c]`),
`dropna`, `astype(float)`, truncated to the minimum length, then a
baseline `Efficiency_%` column is appended. -/
def readExcel3 (g : Grid) : Except String DF :=
  if g.ncols < 3 then Except.error "positional indexer out of bounds"
  else
    match astypeFloat (dropna (g.col 0)) with
    | Except.error e => Except.error e
    | Except.ok flows =>
        match astypeFloat (dropna (g.col 1)) with
        | Except.error e => Except.error e
        | Except.ok heads =>
            match astypeFloat (dropna (g.col 2)) with
            | Except.error e => Except.error e
            | Except.ok powers =>
                let n := min flows.length (min heads.length powers.length)
                let df : DF := [(ColKey.flowInput, flows.take n),
                  (ColKey.headM, heads.take n),
                  (ColKey.powerInputKW, powers.take n)]
                Except.ok (dfAssign df ColKey.effPct
                  (effCol (dfGet df ColKey.flowInput) (dfGet df ColKey.headM)
                    (dfGet df ColKey.powerInputKW)))

/-!
## The affinity engines
-/

/-- One iteration of the `for D in new_dias` loop of `apply_affinity`
in `app_streamlit.py` / `app_streamlit1.py`. -/
def affStep (Dorig : ℚ) (out : DF) (D : ℚ) : DF :=
  let ratio := FVal.fdiv (FVal.fin D) (FVal.fin Dorig)
  let out1 := dfAssign out (ColKey.flowD D)
    (colMulScalar (dfGet out ColKey.flowOrig) ratio)
  let out2 := dfAssign out1 (ColKey.headD D)
    (colMulScalar (dfGet out1 ColKey.headOrig) (FVal.fpow ratio 2))
  dfAssign out2 (ColKey.powerD D)
    (colMulScalar (dfGet out2 ColKey.powerOrigKW) (FVal.fpow ratio 3))

/-- `apply_affinity(df, D_orig, new_dias)` of `app_streamlit.py` and
`app_streamlit1.py` (textually identical in both): copy the frame,
then per target diameter append/overwrite the three scaled columns. -/
def apply_affinity (df : DF) (Dorig : ℚ) (newDias : List ℚ) : DF :=
  newDias.foldl (affStep Dorig) df

/-- One iteration of the loop of `apply_affinity` in
`app_streamlit3.py`: the three scaled columns, then the per-diameter
efficiency computed from the just-assigned scaled columns of `out`. -/
def affStep3 (Dorig : ℚ) (out : DF) (D : ℚ) : DF :=
  let ratio := FVal.fdiv (FVal.fin D) (FVal.fin Dorig)
  let out1 := dfAssign out (ColKey.flowD D)
    (colMulScalar (dfGet out ColKey.flowInput) ratio)
  let out2 := dfAssign out1 (ColKey.headD D)
    (colMulScalar (dfGet out1 ColKey.headM) (FVal.fpow ratio 2))
  let out3 := dfAssign out2 (ColKey.powerD D)
    (colMulScalar (dfGet out2 ColKey.powerInputKW) (FVal.fpow ratio 3))
  dfAssign out3 (ColKey.effD D)
    (effCol (dfGet out3 (ColKey.flowD D)) (dfGet out3 (ColKey.headD D))
      (dfGet out3 (ColKey.powerD D)))

/-- `apply_affinity(df, D_orig, new_dias)` of `app_streamlit3.py`. -/
def apply_affinity3 (df : DF) (Dorig : ℚ) (newDias : List ℚ) : DF :=
  newDias.foldl (affStep3 Dorig) df

/-!
## Per-diameter sheet export (`build_excel_bytes`, `app_streamlit1.py`)
-/

/-- Sheet identity in the output workbook.  The source derives the
per-diameter sheet name from the diameter value (`D{int(D)}` or
`D{D}`, truncated to 31 characters); distinct diameters yield distinct
names (the 31-character truncation could only merge names longer than
any realistic diameter literal, which is not modelled), so the sheet
key is the diameter itself. -/
inductive SheetKey where
  | original | converted | dia (d : ℚ)
deriving DecidableEq

/-- `Series.round(decimals)` on one value: non-finite values round to
themselves.  Tie-breaking (half-even in the host) is modelled as
`round`; no claim depends on ties. -/
def roundF (decimals : Nat) : FVal → FVal
  | FVal.fin q => FVal.fin ((round (q * 10 ^ decimals) : ℤ) / (10 ^ decimals : ℚ))
  | x => x

/-- `DataFrame.round(decimals)`. -/
def dfRound (decimals : Nat) (df : DF) : DF :=
  df.map (fun p => (p.1, p.2.map (roundF decimals)))

/-- One iteration of the `for D in new_dias` loop of the per-sheet
branch of `build_excel_bytes`: build the per-diameter frame from a copy
of the original data and write it under the diameter's sheet name. -/
def sheetStep (dfOrig : DF) (Dorig : ℚ) (decimals : Nat)
    (sheets : List (SheetKey × DF)) (D : ℚ) : List (SheetKey × DF) :=
  let ratio := FVal.fdiv (FVal.fin D) (FVal.fin Dorig)
  let temp := dfAssign dfOrig (ColKey.flowD D)
    ((colMulScalar (dfGet dfOrig ColKey.flowOrig) ratio).map (roundF decimals))
  let temp := dfAssign temp (ColKey.headD D)
    ((colMulScalar (dfGet temp ColKey.headOrig) (FVal.fpow ratio 2)).map
      (roundF decimals))
  let temp := dfAssign temp (ColKey.powerD D)
    ((colMulScalar (dfGet temp ColKey.powerOrigKW) (FVal.fpow ratio 3)).map
      (roundF decimals))
  setKV sheets (SheetKey.dia D) temp

/-- `build_excel_bytes` of `app_streamlit1.py`, modelled at the
workbook level (ordered list of named sheets).  Writing a sheet whose
name already exists reuses that sheet (pandas' openpyxl writer), which
is `setKV`.  The per-sheet branch writes an `original` sheet, then one
sheet per target diameter with the three rounded scaled columns; the
single-sheet branch writes `df_out` rounded to one `converted` sheet. -/
def build_excel_bytes (dfOrig dfOut : DF) (Dorig : ℚ) (newDias : List ℚ)
    (perSheet : Bool) (decimals : Nat) : List (SheetKey × DF) :=
  if perSheet then
    newDias.foldl (sheetStep dfOrig Dorig decimals)
      [(SheetKey.original, dfRound decimals dfOrig)]
  else [(SheetKey.converted, dfRound decimals dfOut)]

/-- `df[cols]` on a list of column labels: one output column per list
entry, in list order — a duplicated label selects the same column
twice, as pandas does.  (A missing label raises KeyError in pandas;
the scripts only select labels they just created, so the `dfGet`
default is never reached on their flows.) -/
def selectCols (df : DF) (cols : List ColKey) : DF :=
  cols.map (fun k => (k, dfGet df k))

/-- The `cols` list of the download branch of `app_streamlit.py`
(lines 106-108): the three baseline names, then — one loop iteration
per occurrence in `new_dias`, duplicates included — that diameter's
three derived names. -/
def wideCols (newDias : List ℚ) : List ColKey :=
  newDias.foldl
    (fun acc D => acc ++ [ColKey.flowD D, ColKey.headD D, ColKey.powerD D])
    [ColKey.flowOrig, ColKey.headOrig, ColKey.powerOrigKW]

/-- The wide download table of `app_streamlit.py` (lines 104-110):
`apply_affinity`, then re-selection `df_out = df_out[cols]`, then
`df_out.round(6)`. -/
def wide_download (df : DF) (Dorig : ℚ) (newDias : List ℚ) : DF :=
  dfRound 6 (selectCols (apply_affinity df Dorig newDias) (wideCols newDias))

/-- Key-membership test (pandas `name in df.columns`). -/
def hasKey {α β : Type} [DecidableEq α] (l : List (α × β)) (k : α) : Bool :=
  l.any (fun p => decide (p.1 = k))

/-- The column names created inside the affinity loops. -/
def ColKey.isDerived : ColKey → Bool
  | ColKey.flowD _ => true
  | ColKey.headD _ => true
  | ColKey.powerD _ => true
  | ColKey.effD _ => true
  | _ => false

/-!
## Concrete fixtures and the spec-side scan
-/

/-- The three-column frame the variant-1/2 reader assembles. -/
def mkBaselineDF (f h p : List FVal) : DF :=
  [(ColKey.flowOrig, f), (ColKey.headOrig, h), (ColKey.powerOrigKW, p)]

/-- Claim-side collection rule (the claim's words, for comparison with
the code's `dropna`): scan a column collecting numeric values, and stop
at the first blank or non-numeric cell. -/
def scanUntilBlank : List Cell → List ℚ
  | Cell.num q :: rest => q :: scanUntilBlank rest
  | _ => []

/-- Grid with an interior blank in the flow column (rows below the
header: flow `1, blank, 3`; head `10, 20, 30`; power `5, 6, 7`). -/
def G3 : Grid :=
  ⟨[[Cell.str none, Cell.str none, Cell.str none],
    [Cell.num 1, Cell.num 10, Cell.num 5],
    [Cell.blank, Cell.num 20, Cell.num 6],
    [Cell.num 3, Cell.num 30, Cell.num 7]]⟩

/-- Grid whose three data columns hold 5, 3 and 4 contiguous values. -/
def G534 : Grid :=
  ⟨[[Cell.str none, Cell.str none, Cell.str none],
    [Cell.num 1, Cell.num 10, Cell.num 5],
    [Cell.num 2, Cell.num 20, Cell.num 6],
    [Cell.num 3, Cell.num 30, Cell.num 7],
    [Cell.num 4, Cell.blank, Cell.num 8],
    [Cell.num 5, Cell.blank, Cell.blank]]⟩

/-- One-row grid with the number 7 in cell D1 (row 0, column 3). -/
def G4 : Grid := ⟨[[Cell.blank, Cell.blank, Cell.blank, Cell.num 7]]⟩

/-- Six-row grid, fully numeric except one blank at row 2, column 0. -/
def G5 : Grid :=
  ⟨[[Cell.str none, Cell.str none, Cell.str none],
    [Cell.num 1, Cell.num 10, Cell.num 5],
    [Cell.blank, Cell.num 20, Cell.num 6],
    [Cell.num 3, Cell.num 30, Cell.num 7],
    [Cell.num 4, Cell.num 40, Cell.num 8],
    [Cell.num 5, Cell.num 50, Cell.num 9]]⟩

/-- Two-row all-numeric grid (row 0 holds `1, 2, 3`). -/
def G6 : Grid :=
  ⟨[[Cell.num 1, Cell.num 2, Cell.num 3],
    [Cell.num 4, Cell.num 5, Cell.num 6]]⟩

/-- Shared tail rows for the row-replacement witness. -/
def restW : List (List Cell) :=
  [[Cell.num 1, Cell.num 2, Cell.num 3], [Cell.num 4, Cell.num 5, Cell.num 6]]

/-- One-sample baseline frame for the variant-1/2 engine. -/
def dfW : DF := mkBaselineDF [FVal.fin 100] [FVal.fin 20] [FVal.fin 5]

/-- One-sample baseline frame for the variant-3 engine. -/
def dfW3 : DF :=
  [(ColKey.flowInput, [FVal.fin 100]), (ColKey.headM, [FVal.fin 20]),
   (ColKey.powerInputKW, [FVal.fin 5])]

/-- One-sample baseline frame with zero power. -/
def dfW3zero : DF :=
  [(ColKey.flowInput, [FVal.fin 100]), (ColKey.headM, [FVal.fin 20]),
   (ColKey.powerInputKW, [FVal.fin 0])]

/-!
## Value-model lemmas
-/

namespace FVal

@[simp] theorem fmul_fin_fin (a b : ℚ) : fmul (fin a) (fin b) = fin (a * b) := rfl

@[simp] theorem fmul_one (x : FVal) : fmul x (fin 1) = x := by
  cases x with
  | nan => rfl
  | inf => simp [fmul]
  | ninf => simp [fmul]
  | fin a => simp [fmul]

theorem fpow_fin (q : ℚ) (n : Nat) : fpow (fin q) n = fin (q ^ n) := by
  induction n with
  | zero => simp [fpow]
  | succ n ih => simp [fpow, ih, pow_succ]

theorem fdiv_fin_fin_of_ne (a b : ℚ) (hb : b ≠ 0) :
    fdiv (fin a) (fin b) = fin (a / b) := by
  simp [fdiv, hb]

end FVal

/-!
## Association-list lemmas for `setKV` / `getKV`
-/

section AssocLemmas

variable {α β : Type} [DecidableEq α]

theorem getKV_setKV_self (l : List (α × β)) (k : α) (v : β) :
    getKV (setKV l k v) k = some v := by
  unfold setKV getKV
  by_cases h : l.any (fun p => decide (p.1 = k)) = true
  · rw [if_pos h, List.find?_map]
    have hfun : ((fun p : α × β => decide (p.1 = k)) ∘
        (fun p : α × β => if p.1 = k then (k, v) else p)) =
        fun p : α × β => decide (p.1 = k) := by
      funext p
      by_cases hp : p.1 = k <;> simp [hp]
    rw [hfun]
    rcases List.any_eq_true.mp h with ⟨p0, hp0mem, hp0⟩
    have hsome : (l.find? fun p : α × β => decide (p.1 = k)).isSome := by
      rw [List.find?_isSome]
      exact ⟨p0, hp0mem, hp0⟩
    rcases Option.isSome_iff_exists.mp hsome with ⟨q0, hq0⟩
    have hq0p := List.find?_some hq0
    have hq0k : q0.1 = k := of_decide_eq_true hq0p
    simp [hq0, hq0k]
  · rw [if_neg h, List.find?_append]
    have hnone : l.find? (fun p : α × β => decide (p.1 = k)) = none := by
      rw [List.find?_eq_none]
      intro x hx
      intro hcontra
      exact h (List.any_eq_true.mpr ⟨x, hx, hcontra⟩)
    simp [hnone]

theorem getKV_setKV_ne (l : List (α × β)) (k k' : α) (v : β) (hne : k' ≠ k) :
    getKV (setKV l k v) k' = getKV l k' := by
  unfold setKV getKV
  by_cases h : l.any (fun p => decide (p.1 = k)) = true
  · rw [if_pos h, List.find?_map]
    have hfun : ((fun p : α × β => decide (p.1 = k')) ∘
        (fun p : α × β => if p.1 = k then (k, v) else p)) =
        fun p : α × β => decide (p.1 = k') := by
      funext p
      by_cases hp : p.1 = k <;> simp [hp]
    rw [hfun]
    cases hfind : l.find? (fun p : α × β => decide (p.1 = k')) with
    | none => simp
    | some q0 =>
        have hq0p := List.find?_some hfind
        have hq0 : q0.1 = k' := of_decide_eq_true hq0p
        have hq0k : ¬ q0.1 = k := by rw [hq0]; exact hne
        simp [hq0k]
  · rw [if_neg h, List.find?_append]
    have hnot : ¬ (((k, v) : α × β).1 = k') := fun hh => hne hh.symm
    simp [hnot]

theorem hasKey_setKV (l : List (α × β)) (k k' : α) (v : β) :
    hasKey (setKV l k v) k' = (hasKey l k' || decide (k = k')) := by
  unfold setKV hasKey
  by_cases h : l.any (fun p => decide (p.1 = k)) = true
  · rw [if_pos h, List.any_map]
    have hfun : ((fun p : α × β => decide (p.1 = k')) ∘
        (fun p : α × β => if p.1 = k then (k, v) else p)) =
        fun p : α × β => decide (p.1 = k') := by
      funext p
      by_cases hp : p.1 = k <;> simp [hp]
    rw [hfun]
    by_cases hkk : k = k'
    · subst hkk
      simp [h]
    · simp [hkk]
  · rw [if_neg h, List.any_append]
    simp

theorem length_setKV (l : List (α × β)) (k : α) (v : β) :
    (setKV l k v).length = if hasKey l k then l.length else l.length + 1 := by
  unfold setKV hasKey
  by_cases h : l.any (fun p => decide (p.1 = k)) = true
  · rw [if_pos h, if_pos h]
    simp
  · rw [if_neg h, if_neg h]
    simp

theorem keys_setKV (l : List (α × β)) (k : α) (v : β) :
    (setKV l k v).map Prod.fst =
      l.map Prod.fst ++ (if hasKey l k then [] else [k]) := by
  unfold setKV hasKey
  by_cases h : l.any (fun p => decide (p.1 = k)) = true
  · rw [if_pos h, if_pos h, List.map_map]
    have hfun : (Prod.fst ∘ (fun p : α × β => if p.1 = k then (k, v) else p)) =
        (Prod.fst : α × β → α) := by
      funext p
      by_cases hp : p.1 = k <;> simp [hp]
    rw [hfun]
    simp
  · rw [if_neg h, if_neg h]
    simp

end AssocLemmas

/-!
## DataFrame-level corollaries
-/

theorem dfGet_assign_self (df : DF) (k : ColKey) (v : List FVal) :
    dfGet (dfAssign df k v) k = v := by
  simp [dfGet, dfAssign, getKV_setKV_self]

theorem dfGet_assign_ne (df : DF) (k k' : ColKey) (v : List FVal) (h : k' ≠ k) :
    dfGet (dfAssign df k v) k' = dfGet df k' := by
  simp [dfGet, dfAssign, getKV_setKV_ne _ _ _ _ h]

theorem not_derived_ne (k : ColKey) (hk : ColKey.isDerived k = false) (d : ℚ) :
    k ≠ ColKey.flowD d ∧ k ≠ ColKey.headD d ∧ k ≠ ColKey.powerD d ∧
      k ≠ ColKey.effD d := by
  cases k <;> simp_all [ColKey.isDerived]

/-!
## Engine lemmas: what each loop iteration does to each column
-/

theorem affStep_preserves (Dorig : ℚ) (out : DF) (D : ℚ) (k : ColKey)
    (hk : ColKey.isDerived k = false) :
    dfGet (affStep Dorig out D) k = dfGet out k := by
  obtain ⟨h1, h2, h3, _⟩ := not_derived_ne k hk D
  simp only [affStep]
  rw [dfGet_assign_ne _ _ _ _ h3, dfGet_assign_ne _ _ _ _ h2,
    dfGet_assign_ne _ _ _ _ h1]

theorem fold_affStep_preserves (Dorig : ℚ) (ds : List ℚ) (df : DF) (k : ColKey)
    (hk : ColKey.isDerived k = false) :
    dfGet (ds.foldl (affStep Dorig) df) k = dfGet df k := by
  induction ds generalizing df with
  | nil => rfl
  | cons d t ih => rw [List.foldl_cons, ih, affStep_preserves _ _ _ _ hk]

theorem affStep_flowD (Dorig : ℚ) (out : DF) (D : ℚ) :
    dfGet (affStep Dorig out D) (ColKey.flowD D) =
      colMulScalar (dfGet out ColKey.flowOrig)
        (FVal.fdiv (FVal.fin D) (FVal.fin Dorig)) := by
  simp only [affStep]
  rw [dfGet_assign_ne _ (ColKey.powerD D) (ColKey.flowD D) _ (by simp),
    dfGet_assign_ne _ (ColKey.headD D) (ColKey.flowD D) _ (by simp),
    dfGet_assign_self]

theorem affStep_headD (Dorig : ℚ) (out : DF) (D : ℚ) :
    dfGet (affStep Dorig out D) (ColKey.headD D) =
      colMulScalar (dfGet out ColKey.headOrig)
        (FVal.fpow (FVal.fdiv (FVal.fin D) (FVal.fin Dorig)) 2) := by
  simp only [affStep]
  rw [dfGet_assign_ne _ (ColKey.powerD D) (ColKey.headD D) _ (by simp),
    dfGet_assign_self,
    dfGet_assign_ne _ (ColKey.flowD D) ColKey.headOrig _ (by simp)]

theorem affStep_powerD (Dorig : ℚ) (out : DF) (D : ℚ) :
    dfGet (affStep Dorig out D) (ColKey.powerD D) =
      colMulScalar (dfGet out ColKey.powerOrigKW)
        (FVal.fpow (FVal.fdiv (FVal.fin D) (FVal.fin Dorig)) 3) := by
  simp only [affStep]
  rw [dfGet_assign_self,
    dfGet_assign_ne _ (ColKey.headD D) ColKey.powerOrigKW _ (by simp),
    dfGet_assign_ne _ (ColKey.flowD D) ColKey.powerOrigKW _ (by simp)]

theorem affStep_preserves_derived (Dorig : ℚ) (out : DF) (D' D : ℚ)
    (hne : D ≠ D') :
    dfGet (affStep Dorig out D') (ColKey.flowD D) = dfGet out (ColKey.flowD D) ∧
    dfGet (affStep Dorig out D') (ColKey.headD D) = dfGet out (ColKey.headD D) ∧
    dfGet (affStep Dorig out D') (ColKey.powerD D) =
      dfGet out (ColKey.powerD D) := by
  refine ⟨?_, ?_, ?_⟩ <;>
  · simp only [affStep]
    rw [dfGet_assign_ne _ _ _ _ (by simp [hne]),
      dfGet_assign_ne _ _ _ _ (by simp [hne]),
      dfGet_assign_ne _ _ _ _ (by simp [hne])]

theorem fold_affStep_notmem (Dorig : ℚ) (ds : List ℚ) (df : DF) (D : ℚ)
    (hD : D ∉ ds) :
    dfGet (ds.foldl (affStep Dorig) df) (ColKey.flowD D) =
      dfGet df (ColKey.flowD D) ∧
    dfGet (ds.foldl (affStep Dorig) df) (ColKey.headD D) =
      dfGet df (ColKey.headD D) ∧
    dfGet (ds.foldl (affStep Dorig) df) (ColKey.powerD D) =
      dfGet df (ColKey.powerD D) := by
  induction ds generalizing df with
  | nil => exact ⟨rfl, rfl, rfl⟩
  | cons d t ih =>
      have hne : D ≠ d := fun hh => hD (hh ▸ List.mem_cons_self d t)
      have hDt : D ∉ t := fun hh => hD (List.mem_cons_of_mem d hh)
      obtain ⟨s1, s2, s3⟩ := affStep_preserves_derived Dorig df d D hne
      obtain ⟨i1, i2, i3⟩ := ih (affStep Dorig df d) hDt
      exact ⟨by rw [List.foldl_cons, i1, s1], by rw [List.foldl_cons, i2, s2],
        by rw [List.foldl_cons, i3, s3]⟩

theorem fold_affStep_flowD (Dorig : ℚ) (ds : List ℚ) (df : DF) (D : ℚ)
    (hmem : D ∈ ds) :
    dfGet (ds.foldl (affStep Dorig) df) (ColKey.flowD D) =
      colMulScalar (dfGet df ColKey.flowOrig)
        (FVal.fdiv (FVal.fin D) (FVal.fin Dorig)) := by
  induction ds generalizing df with
  | nil => cases hmem
  | cons d t ih =>
      rw [List.foldl_cons]
      by_cases hDt : D ∈ t
      · rw [ih (affStep Dorig df d) hDt,
          affStep_preserves Dorig df d ColKey.flowOrig rfl]
      · have hDd : D = d := by
          rcases List.mem_cons.mp hmem with h | h
          · exact h
          · exact absurd h hDt
        subst hDd
        rw [(fold_affStep_notmem Dorig t (affStep Dorig df D) D hDt).1,
          affStep_flowD]

theorem fold_affStep_headD (Dorig : ℚ) (ds : List ℚ) (df : DF) (D : ℚ)
    (hmem : D ∈ ds) :
    dfGet (ds.foldl (affStep Dorig) df) (ColKey.headD D) =
      colMulScalar (dfGet df ColKey.headOrig)
        (FVal.fpow (FVal.fdiv (FVal.fin D) (FVal.fin Dorig)) 2) := by
  induction ds generalizing df with
  | nil => cases hmem
  | cons d t ih =>
      rw [List.foldl_cons]
      by_cases hDt : D ∈ t
      · rw [ih (affStep Dorig df d) hDt,
          affStep_preserves Dorig df d ColKey.headOrig rfl]
      · have hDd : D = d := by
          rcases List.mem_cons.mp hmem with h | h
          · exact h
          · exact absurd h hDt
        subst hDd
        rw [(fold_affStep_notmem Dorig t (affStep Dorig df D) D hDt).2.1,
          affStep_headD]

theorem fold_affStep_powerD (Dorig : ℚ) (ds : List ℚ) (df : DF) (D : ℚ)
    (hmem : D ∈ ds) :
    dfGet (ds.foldl (affStep Dorig) df) (ColKey.powerD D) =
      colMulScalar (dfGet df ColKey.powerOrigKW)
        (FVal.fpow (FVal.fdiv (FVal.fin D) (FVal.fin Dorig)) 3) := by
  induction ds generalizing df with
  | nil => cases hmem
  | cons d t ih =>
      rw [List.foldl_cons]
      by_cases hDt : D ∈ t
      · rw [ih (affStep Dorig df d) hDt,
          affStep_preserves Dorig df d ColKey.powerOrigKW rfl]
      · have hDd : D = d := by
          rcases List.mem_cons.mp hmem with h | h
          · exact h
          · exact absurd h hDt
        subst hDd
        rw [(fold_affStep_notmem Dorig t (affStep Dorig df D) D hDt).2.2,
          affStep_powerD]

/-!
## Engine lemmas for the `app_streamlit3.py` variant
-/

theorem affStep3_preserves (Dorig : ℚ) (out : DF) (D : ℚ) (k : ColKey)
    (hk : ColKey.isDerived k = false) :
    dfGet (affStep3 Dorig out D) k = dfGet out k := by
  obtain ⟨h1, h2, h3, h4⟩ := not_derived_ne k hk D
  simp only [affStep3]
  rw [dfGet_assign_ne _ _ _ _ h4, dfGet_assign_ne _ _ _ _ h3,
    dfGet_assign_ne _ _ _ _ h2, dfGet_assign_ne _ _ _ _ h1]

theorem fold_affStep3_preserves (Dorig : ℚ) (ds : List ℚ) (df : DF) (k : ColKey)
    (hk : ColKey.isDerived k = false) :
    dfGet (ds.foldl (affStep3 Dorig) df) k = dfGet df k := by
  induction ds generalizing df with
  | nil => rfl
  | cons d t ih => rw [List.foldl_cons, ih, affStep3_preserves _ _ _ _ hk]

theorem affStep3_flowD (Dorig : ℚ) (out : DF) (D : ℚ) :
    dfGet (affStep3 Dorig out D) (ColKey.flowD D) =
      colMulScalar (dfGet out ColKey.flowInput)
        (FVal.fdiv (FVal.fin D) (FVal.fin Dorig)) := by
  simp only [affStep3]
  rw [dfGet_assign_ne _ (ColKey.effD D) (ColKey.flowD D) _ (by simp),
    dfGet_assign_ne _ (ColKey.powerD D) (ColKey.flowD D) _ (by simp),
    dfGet_assign_ne _ (ColKey.headD D) (ColKey.flowD D) _ (by simp),
    dfGet_assign_self]

theorem affStep3_headD (Dorig : ℚ) (out : DF) (D : ℚ) :
    dfGet (affStep3 Dorig out D) (ColKey.headD D) =
      colMulScalar (dfGet out ColKey.headM)
        (FVal.fpow (FVal.fdiv (FVal.fin D) (FVal.fin Dorig)) 2) := by
  simp only [affStep3]
  rw [dfGet_assign_ne _ (ColKey.effD D) (ColKey.headD D) _ (by simp),
    dfGet_assign_ne _ (ColKey.powerD D) (ColKey.headD D) _ (by simp),
    dfGet_assign_self,
    dfGet_assign_ne _ (ColKey.flowD D) ColKey.headM _ (by simp)]

theorem affStep3_powerD (Dorig : ℚ) (out : DF) (D : ℚ) :
    dfGet (affStep3 Dorig out D) (ColKey.powerD D) =
      colMulScalar (dfGet out ColKey.powerInputKW)
        (FVal.fpow (FVal.fdiv (FVal.fin D) (FVal.fin Dorig)) 3) := by
  simp only [affStep3]
  rw [dfGet_assign_ne _ (ColKey.effD D) (ColKey.powerD D) _ (by simp),
    dfGet_assign_self,
    dfGet_assign_ne _ (ColKey.headD D) ColKey.powerInputKW _ (by simp),
    dfGet_assign_ne _ (ColKey.flowD D) ColKey.powerInputKW _ (by simp)]

theorem affStep3_effD (Dorig : ℚ) (out : DF) (D : ℚ) :
    dfGet (affStep3 Dorig out D) (ColKey.effD D) =
      effCol
        (colMulScalar (dfGet out ColKey.flowInput)
          (FVal.fdiv (FVal.fin D) (FVal.fin Dorig)))
        (colMulScalar (dfGet out ColKey.headM)
          (FVal.fpow (FVal.fdiv (FVal.fin D) (FVal.fin Dorig)) 2))
        (colMulScalar (dfGet out ColKey.powerInputKW)
          (FVal.fpow (FVal.fdiv (FVal.fin D) (FVal.fin Dorig)) 3)) := by
  simp only [affStep3]
  rw [dfGet_assign_self]
  rw [dfGet_assign_ne _ (ColKey.powerD D) (ColKey.flowD D) _ (by simp),
    dfGet_assign_ne _ (ColKey.headD D) (ColKey.flowD D) _ (by simp),
    dfGet_assign_self]
  rw [dfGet_assign_ne _ (ColKey.powerD D) (ColKey.headD D) _ (by simp),
    dfGet_assign_self,
    dfGet_assign_ne _ (ColKey.flowD D) ColKey.headM _ (by simp)]
  rw [dfGet_assign_self,
    dfGet_assign_ne _ (ColKey.headD D) ColKey.powerInputKW _ (by simp),
    dfGet_assign_ne _ (ColKey.flowD D) ColKey.powerInputKW _ (by simp)]

theorem affStep3_preserves_derived (Dorig : ℚ) (out : DF) (D' D : ℚ)
    (hne : D ≠ D') :
    dfGet (affStep3 Dorig out D') (ColKey.flowD D) = dfGet out (ColKey.flowD D) ∧
    dfGet (affStep3 Dorig out D') (ColKey.headD D) = dfGet out (ColKey.headD D) ∧
    dfGet (affStep3 Dorig out D') (ColKey.powerD D) =
      dfGet out (ColKey.powerD D) ∧
    dfGet (affStep3 Dorig out D') (ColKey.effD D) = dfGet out (ColKey.effD D) := by
  refine ⟨?_, ?_, ?_, ?_⟩ <;>
  · simp only [affStep3]
    rw [dfGet_assign_ne _ _ _ _ (by simp [hne]),
      dfGet_assign_ne _ _ _ _ (by simp [hne]),
      dfGet_assign_ne _ _ _ _ (by simp [hne]),
      dfGet_assign_ne _ _ _ _ (by simp [hne])]

theorem fold_affStep3_notmem (Dorig : ℚ) (ds : List ℚ) (df : DF) (D : ℚ)
    (hD : D ∉ ds) :
    dfGet (ds.foldl (affStep3 Dorig) df) (ColKey.flowD D) =
      dfGet df (ColKey.flowD D) ∧
    dfGet (ds.foldl (affStep3 Dorig) df) (ColKey.headD D) =
      dfGet df (ColKey.headD D) ∧
    dfGet (ds.foldl (affStep3 Dorig) df) (ColKey.powerD D) =
      dfGet df (ColKey.powerD D) ∧
    dfGet (ds.foldl (affStep3 Dorig) df) (ColKey.effD D) =
      dfGet df (ColKey.effD D) := by
  induction ds generalizing df with
  | nil => exact ⟨rfl, rfl, rfl, rfl⟩
  | cons d t ih =>
      have hne : D ≠ d := fun hh => hD (hh ▸ List.mem_cons_self d t)
      have hDt : D ∉ t := fun hh => hD (List.mem_cons_of_mem d hh)
      obtain ⟨s1, s2, s3, s4⟩ := affStep3_preserves_derived Dorig df d D hne
      obtain ⟨i1, i2, i3, i4⟩ := ih (affStep3 Dorig df d) hDt
      exact ⟨by rw [List.foldl_cons, i1, s1], by rw [List.foldl_cons, i2, s2],
        by rw [List.foldl_cons, i3, s3], by rw [List.foldl_cons, i4, s4]⟩

theorem fold_affStep3_flowD (Dorig : ℚ) (ds : List ℚ) (df : DF) (D : ℚ)
    (hmem : D ∈ ds) :
    dfGet (ds.foldl (affStep3 Dorig) df) (ColKey.flowD D) =
      colMulScalar (dfGet df ColKey.flowInput)
        (FVal.fdiv (FVal.fin D) (FVal.fin Dorig)) := by
  induction ds generalizing df with
  | nil => cases hmem
  | cons d t ih =>
      rw [List.foldl_cons]
      by_cases hDt : D ∈ t
      · rw [ih (affStep3 Dorig df d) hDt,
          affStep3_preserves Dorig df d ColKey.flowInput rfl]
      · have hDd : D = d := by
          rcases List.mem_cons.mp hmem with h | h
          · exact h
          · exact absurd h hDt
        subst hDd
        rw [(fold_affStep3_notmem Dorig t (affStep3 Dorig df D) D hDt).1,
          affStep3_flowD]

theorem fold_affStep3_headD (Dorig : ℚ) (ds : List ℚ) (df : DF) (D : ℚ)
    (hmem : D ∈ ds) :
    dfGet (ds.foldl (affStep3 Dorig) df) (ColKey.headD D) =
      colMulScalar (dfGet df ColKey.headM)
        (FVal.fpow (FVal.fdiv (FVal.fin D) (FVal.fin Dorig)) 2) := by
  induction ds generalizing df with
  | nil => cases hmem
  | cons d t ih =>
      rw [List.foldl_cons]
      by_cases hDt : D ∈ t
      · rw [ih (affStep3 Dorig df d) hDt,
          affStep3_preserves Dorig df d ColKey.headM rfl]
      · have hDd : D = d := by
          rcases List.mem_cons.mp hmem with h | h
          · exact h
          · exact absurd h hDt
        subst hDd
        rw [(fold_affStep3_notmem Dorig t (affStep3 Dorig df D) D hDt).2.1,
          affStep3_headD]

theorem fold_affStep3_powerD (Dorig : ℚ) (ds : List ℚ) (df : DF) (D : ℚ)
    (hmem : D ∈ ds) :
    dfGet (ds.foldl (affStep3 Dorig) df) (ColKey.powerD D) =
      colMulScalar (dfGet df ColKey.powerInputKW)
        (FVal.fpow (FVal.fdiv (FVal.fin D) (FVal.fin Dorig)) 3) := by
  induction ds generalizing df with
  | nil => cases hmem
  | cons d t ih =>
      rw [List.foldl_cons]
      by_cases hDt : D ∈ t
      · rw [ih (affStep3 Dorig df d) hDt,
          affStep3_preserves Dorig df d ColKey.powerInputKW rfl]
      · have hDd : D = d := by
          rcases List.mem_cons.mp hmem with h | h
          · exact h
          · exact absurd h hDt
        subst hDd
        rw [(fold_affStep3_notmem Dorig t (affStep3 Dorig df D) D hDt).2.2.1,
          affStep3_powerD]

theorem fold_affStep3_effD (Dorig : ℚ) (ds : List ℚ) (df : DF) (D : ℚ)
    (hmem : D ∈ ds) :
    dfGet (ds.foldl (affStep3 Dorig) df) (ColKey.effD D) =
      effCol
        (colMulScalar (dfGet df ColKey.flowInput)
          (FVal.fdiv (FVal.fin D) (FVal.fin Dorig)))
        (colMulScalar (dfGet df ColKey.headM)
          (FVal.fpow (FVal.fdiv (FVal.fin D) (FVal.fin Dorig)) 2))
        (colMulScalar (dfGet df ColKey.powerInputKW)
          (FVal.fpow (FVal.fdiv (FVal.fin D) (FVal.fin Dorig)) 3)) := by
  induction ds generalizing df with
  | nil => cases hmem
  | cons d t ih =>
      rw [List.foldl_cons]
      by_cases hDt : D ∈ t
      · rw [ih (affStep3 Dorig df d) hDt,
          affStep3_preserves Dorig df d ColKey.flowInput rfl,
          affStep3_preserves Dorig df d ColKey.headM rfl,
          affStep3_preserves Dorig df d ColKey.powerInputKW rfl]
      · have hDd : D = d := by
          rcases List.mem_cons.mp hmem with h | h
          · exact h
          · exact absurd h hDt
        subst hDd
        rw [(fold_affStep3_notmem Dorig t (affStep3 Dorig df D) D hDt).2.2.2,
          affStep3_effD]

/-!
## Elementwise efficiency lemma
-/

theorem effCol_getElem (F H P : List FVal) (i : Nat) (a b c : FVal)
    (ha : F[i]? = some a) (hb : H[i]? = some b) (hc : P[i]? = some c) :
    (effCol F H P)[i]? =
      some (FVal.fmul
        (FVal.fdiv (FVal.fmul (FVal.fmul (FVal.fin effConst) a) b) c)
        (FVal.fin 100)) := by
  simp [effCol, List.getElem?_zipWith, ha, hb, hc]

/-!
## Claim theorems

Each claim of the specification review is settled by exactly one
theorem below (with a closed witness or counterexample where needed).
-/

/-- **C1** — For every baseline sample, every original diameter
`D_orig > 0` and every target diameter `D` in the target list, the
conversion output of `apply_affinity` (both the variant-1/2 engine and
the variant-3 engine) for that sample and target is
`flow * (D/D_orig)`, `head * (D/D_orig)^2`, `power * (D/D_orig)^3` —
an elementwise `map` of the baseline column, so sample `i` of a derived
column depends only on baseline sample `i`, with no cross-sample
aggregation, independently per target diameter. -/
theorem C1_affinity_formulas (df df3 : DF) (Dorig : ℚ) (ds : List ℚ) (D : ℚ)
    (hD : 0 < Dorig) (hmem : D ∈ ds) :
    dfGet (apply_affinity df Dorig ds) (ColKey.flowD D) =
      (dfGet df ColKey.flowOrig).map
        (fun x => FVal.fmul x (FVal.fin (D / Dorig))) ∧
    dfGet (apply_affinity df Dorig ds) (ColKey.headD D) =
      (dfGet df ColKey.headOrig).map
        (fun x => FVal.fmul x (FVal.fin ((D / Dorig) ^ 2))) ∧
    dfGet (apply_affinity df Dorig ds) (ColKey.powerD D) =
      (dfGet df ColKey.powerOrigKW).map
        (fun x => FVal.fmul x (FVal.fin ((D / Dorig) ^ 3))) ∧
    dfGet (apply_affinity3 df3 Dorig ds) (ColKey.flowD D) =
      (dfGet df3 ColKey.flowInput).map
        (fun x => FVal.fmul x (FVal.fin (D / Dorig))) ∧
    dfGet (apply_affinity3 df3 Dorig ds) (ColKey.headD D) =
      (dfGet df3 ColKey.headM).map
        (fun x => FVal.fmul x (FVal.fin ((D / Dorig) ^ 2))) ∧
    dfGet (apply_affinity3 df3 Dorig ds) (ColKey.powerD D) =
      (dfGet df3 ColKey.powerInputKW).map
        (fun x => FVal.fmul x (FVal.fin ((D / Dorig) ^ 3))) := by
  have hr : FVal.fdiv (FVal.fin D) (FVal.fin Dorig) = FVal.fin (D / Dorig) :=
    FVal.fdiv_fin_fin_of_ne D Dorig hD.ne'
  refine ⟨?_, ?_, ?_, ?_, ?_, ?_⟩
  · simp only [apply_affinity]
    rw [fold_affStep_flowD _ _ _ _ hmem, hr]
    rfl
  · simp only [apply_affinity]
    rw [fold_affStep_headD _ _ _ _ hmem, hr, FVal.fpow_fin]
    rfl
  · simp only [apply_affinity]
    rw [fold_affStep_powerD _ _ _ _ hmem, hr, FVal.fpow_fin]
    rfl
  · simp only [apply_affinity3]
    rw [fold_affStep3_flowD _ _ _ _ hmem, hr]
    rfl
  · simp only [apply_affinity3]
    rw [fold_affStep3_headD _ _ _ _ hmem, hr, FVal.fpow_fin]
    rfl
  · simp only [apply_affinity3]
    rw [fold_affStep3_powerD _ _ _ _ hmem, hr, FVal.fpow_fin]
    rfl

/-- Witness for C1: at baseline `(100, 20, 5)`, `D_orig = 200`,
targets `[100]`, the derived columns are `[50]`, `[5]`, `[0.625]`. -/
theorem C1_affinity_formulas_witness :
    (0 : ℚ) < 200 ∧ (100 : ℚ) ∈ [(100 : ℚ)] ∧
    dfGet (apply_affinity dfW 200 [100]) (ColKey.flowD 100) = [FVal.fin 50] ∧
    dfGet (apply_affinity dfW 200 [100]) (ColKey.headD 100) = [FVal.fin 5] ∧
    dfGet (apply_affinity3 dfW3 200 [100]) (ColKey.powerD 100) =
      [FVal.fin (5 / 8)] := by
  have h := C1_affinity_formulas dfW dfW3 200 [100] 100 (by norm_num) (by simp)
  have e1 : dfGet dfW ColKey.flowOrig = [FVal.fin 100] := rfl
  have e2 : dfGet dfW ColKey.headOrig = [FVal.fin 20] := rfl
  have e3 : dfGet dfW3 ColKey.powerInputKW = [FVal.fin 5] := rfl
  refine ⟨by norm_num, by simp, ?_, ?_, ?_⟩
  · rw [h.1, e1]; norm_num
  · rw [h.2.1, e2]; norm_num
  · rw [h.2.2.2.2.2, e3]; norm_num

/-- **C2** — In the variant-3 engine, the per-diameter efficiency entry
of sample `i` equals `(0.0001409 * flow' * head' / power') * 100` where
`flow' = flow * (D/D_orig)`, `head' = head * (D/D_orig)^2`,
`power' = power * (D/D_orig)^3` are the scaled values of that same
target diameter (not the baseline values), with the constant
`0.0001409 = 1409/10^7` exact. -/
theorem C2_efficiency_formula (df3 : DF) (Dorig : ℚ) (ds : List ℚ) (D : ℚ)
    (hD : 0 < Dorig) (hmem : D ∈ ds) (i : Nat) (f h p : FVal)
    (hf : (dfGet df3 ColKey.flowInput)[i]? = some f)
    (hh : (dfGet df3 ColKey.headM)[i]? = some h)
    (hp : (dfGet df3 ColKey.powerInputKW)[i]? = some p) :
    (dfGet (apply_affinity3 df3 Dorig ds) (ColKey.effD D))[i]? =
      some (FVal.fmul
        (FVal.fdiv
          (FVal.fmul
            (FVal.fmul (FVal.fin (1409 / 10000000))
              (FVal.fmul f (FVal.fin (D / Dorig))))
            (FVal.fmul h (FVal.fin ((D / Dorig) ^ 2))))
          (FVal.fmul p (FVal.fin ((D / Dorig) ^ 3))))
        (FVal.fin 100)) := by
  have hr : FVal.fdiv (FVal.fin D) (FVal.fin Dorig) = FVal.fin (D / Dorig) :=
    FVal.fdiv_fin_fin_of_ne D Dorig hD.ne'
  simp only [apply_affinity3]
  rw [fold_affStep3_effD _ _ _ _ hmem, hr, FVal.fpow_fin, FVal.fpow_fin]
  exact effCol_getElem _ _ _ i
    (FVal.fmul f (FVal.fin (D / Dorig)))
    (FVal.fmul h (FVal.fin ((D / Dorig) ^ 2)))
    (FVal.fmul p (FVal.fin ((D / Dorig) ^ 3)))
    (by simp [colMulScalar, hf]) (by simp [colMulScalar, hh])
    (by simp [colMulScalar, hp])

/-- Witness for C2: baseline `(100, 20, 5)`, `D_orig = 200`, target
`100`: scaled values `(50, 5, 0.625)` give efficiency
`0.0001409 * 50 * 5 / 0.625 * 100 = 5.636`. -/
theorem C2_efficiency_formula_witness :
    (dfGet (apply_affinity3 dfW3 200 [100]) (ColKey.effD 100))[0]? =
      some (FVal.fin (1409 / 250)) := by
  have h := C2_efficiency_formula dfW3 200 [100] 100 (by norm_num) (by simp) 0
    (FVal.fin 100) (FVal.fin 20) (FVal.fin 5) rfl rfl rfl
  rw [h]; norm_num [FVal.fdiv]

theorem colMulScalar_one (col : List FVal) :
    colMulScalar col (FVal.fin 1) = col := by
  simp [colMulScalar]

/-- **C8** — Converting any baseline with `originalDiameter = D` and
target list `[D]` (for `D > 0`) is the identity on all three scaled
columns, in both engines: the ratio `D / D = 1` leaves every sample
unchanged. -/
theorem C8_identity_ratio (df df3 : DF) (d : ℚ) (hd : 0 < d) :
    dfGet (apply_affinity df d [d]) (ColKey.flowD d) = dfGet df ColKey.flowOrig ∧
    dfGet (apply_affinity df d [d]) (ColKey.headD d) = dfGet df ColKey.headOrig ∧
    dfGet (apply_affinity df d [d]) (ColKey.powerD d) =
      dfGet df ColKey.powerOrigKW ∧
    dfGet (apply_affinity3 df3 d [d]) (ColKey.flowD d) =
      dfGet df3 ColKey.flowInput ∧
    dfGet (apply_affinity3 df3 d [d]) (ColKey.headD d) = dfGet df3 ColKey.headM ∧
    dfGet (apply_affinity3 df3 d [d]) (ColKey.powerD d) =
      dfGet df3 ColKey.powerInputKW := by
  have hmem : d ∈ [d] := by simp
  have hr1 : FVal.fdiv (FVal.fin d) (FVal.fin d) = FVal.fin 1 := by
    rw [FVal.fdiv_fin_fin_of_ne d d hd.ne', div_self hd.ne']
  have hp2 : FVal.fpow (FVal.fin 1) 2 = FVal.fin 1 := by
    rw [FVal.fpow_fin]; norm_num
  have hp3 : FVal.fpow (FVal.fin 1) 3 = FVal.fin 1 := by
    rw [FVal.fpow_fin]; norm_num
  refine ⟨?_, ?_, ?_, ?_, ?_, ?_⟩
  · simp only [apply_affinity]
    rw [fold_affStep_flowD _ _ _ _ hmem, hr1, colMulScalar_one]
  · simp only [apply_affinity]
    rw [fold_affStep_headD _ _ _ _ hmem, hr1, hp2, colMulScalar_one]
  · simp only [apply_affinity]
    rw [fold_affStep_powerD _ _ _ _ hmem, hr1, hp3, colMulScalar_one]
  · simp only [apply_affinity3]
    rw [fold_affStep3_flowD _ _ _ _ hmem, hr1, colMulScalar_one]
  · simp only [apply_affinity3]
    rw [fold_affStep3_headD _ _ _ _ hmem, hr1, hp2, colMulScalar_one]
  · simp only [apply_affinity3]
    rw [fold_affStep3_powerD _ _ _ _ hmem, hr1, hp3, colMulScalar_one]

/-- Witness for C8 at `D = 200` on the one-sample fixtures. -/
theorem C8_identity_ratio_witness :
    (0 : ℚ) < 200 ∧
    dfGet (apply_affinity dfW 200 [200]) (ColKey.flowD 200) = [FVal.fin 100] ∧
    dfGet (apply_affinity3 dfW3 200 [200]) (ColKey.headD 200) = [FVal.fin 20] := by
  have h := C8_identity_ratio dfW dfW3 200 (by norm_num)
  exact ⟨by norm_num, by rw [h.1]; rfl, by rw [h.2.2.2.2.1]; rfl⟩

theorem nonfinite_of_div_zero (q : ℚ) :
    (FVal.fmul (FVal.fdiv (FVal.fin q) (FVal.fin 0)) (FVal.fin 100)).isFinite =
      false := by
  by_cases hq : q = 0
  · subst hq; norm_num [FVal.fdiv, FVal.fmul, FVal.isFinite]
  · by_cases hq2 : 0 < q
    · norm_num [FVal.fdiv, FVal.fmul, FVal.isFinite, hq, hq2]
    · norm_num [FVal.fdiv, FVal.fmul, FVal.isFinite, hq, hq2]

/-- **C9** — For a baseline sample with zero power (finite flow and
head), the scaled power of any target diameter is exactly zero, and the
per-diameter efficiency entry the engine computes is a non-finite value
(`inf`, `ninf` or `nan`), produced by IEEE division rather than by an
exception: the computation is total and the non-finite value is
propagated into the result column. -/
theorem C9_zero_power_nonfinite (df3 : DF) (Dorig : ℚ) (ds : List ℚ) (D : ℚ)
    (hD : 0 < Dorig) (hmem : D ∈ ds) (i : Nat) (f h : ℚ)
    (hf : (dfGet df3 ColKey.flowInput)[i]? = some (FVal.fin f))
    (hh : (dfGet df3 ColKey.headM)[i]? = some (FVal.fin h))
    (hp : (dfGet df3 ColKey.powerInputKW)[i]? = some (FVal.fin 0)) :
    ∃ e, (dfGet (apply_affinity3 df3 Dorig ds) (ColKey.effD D))[i]? = some e ∧
      e.isFinite = false := by
  have hr : FVal.fdiv (FVal.fin D) (FVal.fin Dorig) = FVal.fin (D / Dorig) :=
    FVal.fdiv_fin_fin_of_ne D Dorig hD.ne'
  simp only [apply_affinity3]
  rw [fold_affStep3_effD _ _ _ _ hmem, hr, FVal.fpow_fin, FVal.fpow_fin]
  have hges := effCol_getElem
    (colMulScalar (dfGet df3 ColKey.flowInput) (FVal.fin (D / Dorig)))
    (colMulScalar (dfGet df3 ColKey.headM) (FVal.fin ((D / Dorig) ^ 2)))
    (colMulScalar (dfGet df3 ColKey.powerInputKW) (FVal.fin ((D / Dorig) ^ 3)))
    i
    (FVal.fmul (FVal.fin f) (FVal.fin (D / Dorig)))
    (FVal.fmul (FVal.fin h) (FVal.fin ((D / Dorig) ^ 2)))
    (FVal.fmul (FVal.fin 0) (FVal.fin ((D / Dorig) ^ 3)))
    (by simp [colMulScalar, hf]) (by simp [colMulScalar, hh])
    (by simp [colMulScalar, hp])
  refine ⟨_, hges, ?_⟩
  simp only [FVal.fmul_fin_fin, zero_mul]
  exact nonfinite_of_div_zero _

/-- Witness for C9: baseline `(100, 20, 0)`, `D_orig = 200`,
target `100`. -/
theorem C9_zero_power_nonfinite_witness :
    ∃ e, (dfGet (apply_affinity3 dfW3zero 200 [100]) (ColKey.effD 100))[0]? =
      some e ∧ e.isFinite = false :=
  C9_zero_power_nonfinite dfW3zero 200 [100] 100 (by norm_num) (by simp) 0
    100 20 rfl rfl rfl

/-!
## Key-set lemmas for the engines
-/

theorem hasKey_affStep (Dorig : ℚ) (out : DF) (D : ℚ) (k : ColKey) :
    hasKey (affStep Dorig out D) k =
      (((hasKey out k || decide (ColKey.flowD D = k)) ||
        decide (ColKey.headD D = k)) || decide (ColKey.powerD D = k)) := by
  simp only [affStep, dfAssign]
  rw [hasKey_setKV, hasKey_setKV, hasKey_setKV]

theorem hasKey_affStep3 (Dorig : ℚ) (out : DF) (D : ℚ) (k : ColKey) :
    hasKey (affStep3 Dorig out D) k =
      ((((hasKey out k || decide (ColKey.flowD D = k)) ||
        decide (ColKey.headD D = k)) || decide (ColKey.powerD D = k)) ||
        decide (ColKey.effD D = k)) := by
  simp only [affStep3, dfAssign]
  rw [hasKey_setKV, hasKey_setKV, hasKey_setKV, hasKey_setKV]

theorem fold_hasKey_mono (Dorig : ℚ) (ds : List ℚ) (df : DF) (k : ColKey)
    (hk : hasKey df k = true) :
    hasKey (ds.foldl (affStep Dorig) df) k = true := by
  induction ds generalizing df with
  | nil => exact hk
  | cons d t ih =>
      rw [List.foldl_cons]
      exact ih _ (by rw [hasKey_affStep, hk]; simp)

theorem fold_hasKey_origin (Dorig : ℚ) (ds : List ℚ) (df : DF) (k : ColKey)
    (hk : hasKey (ds.foldl (affStep Dorig) df) k = true) :
    hasKey df k = true ∨ ColKey.isDerived k = true := by
  induction ds generalizing df with
  | nil => exact Or.inl hk
  | cons d t ih =>
      rw [List.foldl_cons] at hk
      rcases ih _ hk with hcase | hcase
      · rw [hasKey_affStep] at hcase
        simp only [Bool.or_eq_true, decide_eq_true_eq] at hcase
        rcases hcase with ((hcase | hcase) | hcase) | hcase
        · exact Or.inl hcase
        · exact Or.inr (hcase ▸ rfl)
        · exact Or.inr (hcase ▸ rfl)
        · exact Or.inr (hcase ▸ rfl)
      · exact Or.inr hcase

theorem fold_hasKey3_mono (Dorig : ℚ) (ds : List ℚ) (df : DF) (k : ColKey)
    (hk : hasKey df k = true) :
    hasKey (ds.foldl (affStep3 Dorig) df) k = true := by
  induction ds generalizing df with
  | nil => exact hk
  | cons d t ih =>
      rw [List.foldl_cons]
      exact ih _ (by rw [hasKey_affStep3, hk]; simp)

theorem fold_hasKey3_origin (Dorig : ℚ) (ds : List ℚ) (df : DF) (k : ColKey)
    (hk : hasKey (ds.foldl (affStep3 Dorig) df) k = true) :
    hasKey df k = true ∨ ColKey.isDerived k = true := by
  induction ds generalizing df with
  | nil => exact Or.inl hk
  | cons d t ih =>
      rw [List.foldl_cons] at hk
      rcases ih _ hk with hcase | hcase
      · rw [hasKey_affStep3] at hcase
        simp only [Bool.or_eq_true, decide_eq_true_eq] at hcase
        rcases hcase with (((hcase | hcase) | hcase) | hcase) | hcase
        · exact Or.inl hcase
        · exact Or.inr (hcase ▸ rfl)
        · exact Or.inr (hcase ▸ rfl)
        · exact Or.inr (hcase ▸ rfl)
        · exact Or.inr (hcase ▸ rfl)
      · exact Or.inr hcase

/-- **C10** — The affinity conversion does not disturb its input
columns: in every engine variant the returned frame still holds the
baseline columns (and, in variant 3, the baseline efficiency column)
with values identical to the input, for any diameters whatsoever; and
the only column names the conversion can add are the per-diameter
derived ones — every name present in the output was present in the
input or is a derived name, and every input name is still present.
(The Lean embedding is pure, so the caller's frame itself is untouched
by construction; the engine's `df.copy()` is what makes the same true
of the mutable pandas frame.) -/
theorem C10_frame_preservation (df df3 : DF) (Dorig : ℚ) (ds : List ℚ) :
    dfGet (apply_affinity df Dorig ds) ColKey.flowOrig =
      dfGet df ColKey.flowOrig ∧
    dfGet (apply_affinity df Dorig ds) ColKey.headOrig =
      dfGet df ColKey.headOrig ∧
    dfGet (apply_affinity df Dorig ds) ColKey.powerOrigKW =
      dfGet df ColKey.powerOrigKW ∧
    dfGet (apply_affinity3 df3 Dorig ds) ColKey.flowInput =
      dfGet df3 ColKey.flowInput ∧
    dfGet (apply_affinity3 df3 Dorig ds) ColKey.headM =
      dfGet df3 ColKey.headM ∧
    dfGet (apply_affinity3 df3 Dorig ds) ColKey.powerInputKW =
      dfGet df3 ColKey.powerInputKW ∧
    dfGet (apply_affinity3 df3 Dorig ds) ColKey.effPct =
      dfGet df3 ColKey.effPct ∧
    (∀ k, hasKey (apply_affinity df Dorig ds) k = true →
      hasKey df k = true ∨ ColKey.isDerived k = true) ∧
    (∀ k, hasKey df k = true →
      hasKey (apply_affinity df Dorig ds) k = true) ∧
    (∀ k, hasKey (apply_affinity3 df3 Dorig ds) k = true →
      hasKey df3 k = true ∨ ColKey.isDerived k = true) ∧
    (∀ k, hasKey df3 k = true →
      hasKey (apply_affinity3 df3 Dorig ds) k = true) := by
  refine ⟨fold_affStep_preserves Dorig ds df ColKey.flowOrig rfl,
    fold_affStep_preserves Dorig ds df ColKey.headOrig rfl,
    fold_affStep_preserves Dorig ds df ColKey.powerOrigKW rfl,
    fold_affStep3_preserves Dorig ds df3 ColKey.flowInput rfl,
    fold_affStep3_preserves Dorig ds df3 ColKey.headM rfl,
    fold_affStep3_preserves Dorig ds df3 ColKey.powerInputKW rfl,
    fold_affStep3_preserves Dorig ds df3 ColKey.effPct rfl,
    fun k hk => fold_hasKey_origin Dorig ds df k hk,
    fun k hk => fold_hasKey_mono Dorig ds df k hk,
    fun k hk => fold_hasKey3_origin Dorig ds df3 k hk,
    fun k hk => fold_hasKey3_mono Dorig ds df3 k hk⟩

/-!
## Column/sheet counting (duplicate target diameters)
-/

theorem card_insert_erase (A : Finset ℚ) (d : ℚ) :
    (insert d A).card = (A.erase d).card + 1 := by
  by_cases hd : d ∈ A
  · rw [Finset.insert_eq_self.mpr hd, Finset.card_erase_of_mem hd]
    have hpos : 0 < A.card := Finset.card_pos.mpr ⟨d, hd⟩
    omega
  · rw [Finset.card_insert_of_not_mem hd, Finset.erase_eq_of_not_mem hd]

theorem length_affStep (Dorig : ℚ) (out : DF) (D : ℚ) :
    (affStep Dorig out D).length =
      out.length + ((if hasKey out (ColKey.flowD D) then 0 else 1) +
        (if hasKey out (ColKey.headD D) then 0 else 1) +
        (if hasKey out (ColKey.powerD D) then 0 else 1)) := by
  simp only [affStep, dfAssign]
  by_cases h1 : hasKey out (ColKey.flowD D) <;>
    by_cases h2 : hasKey out (ColKey.headD D) <;>
      by_cases h3 : hasKey out (ColKey.powerD D) <;>
        simp [length_setKV, hasKey_setKV, h1, h2, h3]

theorem fold_affStep_length (Dorig : ℚ) (ds : List ℚ) (df : DF) (S : Finset ℚ)
    (hf : ∀ e, hasKey df (ColKey.flowD e) = decide (e ∈ S))
    (hh : ∀ e, hasKey df (ColKey.headD e) = decide (e ∈ S))
    (hp : ∀ e, hasKey df (ColKey.powerD e) = decide (e ∈ S)) :
    (ds.foldl (affStep Dorig) df).length =
      df.length + 3 * (ds.toFinset \ S).card := by
  induction ds generalizing df S with
  | nil => simp
  | cons d t ih =>
      rw [List.foldl_cons]
      have hf' : ∀ e, hasKey (affStep Dorig df d) (ColKey.flowD e) =
          decide (e ∈ insert d S) := by
        intro e
        rw [hasKey_affStep, hf e]
        by_cases he : e = d
        · subst he; simp
        · simp [Finset.mem_insert, he, Ne.symm he]
      have hh' : ∀ e, hasKey (affStep Dorig df d) (ColKey.headD e) =
          decide (e ∈ insert d S) := by
        intro e
        rw [hasKey_affStep, hh e]
        by_cases he : e = d
        · subst he; simp
        · simp [Finset.mem_insert, he, Ne.symm he]
      have hp' : ∀ e, hasKey (affStep Dorig df d) (ColKey.powerD e) =
          decide (e ∈ insert d S) := by
        intro e
        rw [hasKey_affStep, hp e]
        by_cases he : e = d
        · subst he; simp
        · simp [Finset.mem_insert, he, Ne.symm he]
      rw [ih (affStep Dorig df d) (insert d S) hf' hh' hp', length_affStep]
      rw [List.toFinset_cons]
      by_cases hd : d ∈ S
      · rw [hf d, hh d, hp d]
        simp only [hd, decide_True, if_true]
        rw [Finset.insert_eq_self.mpr hd,
          Finset.insert_sdiff_of_mem _ hd]
        omega
      · rw [hf d, hh d, hp d]
        simp only [hd, decide_False, Bool.false_eq_true, if_false]
        rw [Finset.insert_sdiff_of_not_mem _ hd, Finset.sdiff_insert,
          card_insert_erase]
        omega

theorem length_sheetStep (dfOrig : DF) (Dorig : ℚ) (dec : Nat)
    (sheets : List (SheetKey × DF)) (D : ℚ) :
    (sheetStep dfOrig Dorig dec sheets D).length =
      sheets.length + (if hasKey sheets (SheetKey.dia D) then 0 else 1) := by
  simp only [sheetStep]
  rw [length_setKV]
  by_cases hk : hasKey sheets (SheetKey.dia D) <;> simp [hk]

theorem hasKey_sheetStep (dfOrig : DF) (Dorig : ℚ) (dec : Nat)
    (sheets : List (SheetKey × DF)) (D e : ℚ) :
    hasKey (sheetStep dfOrig Dorig dec sheets D) (SheetKey.dia e) =
      (hasKey sheets (SheetKey.dia e) || decide (D = e)) := by
  simp only [sheetStep]
  rw [hasKey_setKV,
    show decide (SheetKey.dia D = SheetKey.dia e) = decide (D = e) from
      decide_eq_decide.mpr (by simp)]

theorem fold_sheetStep_length (dfOrig : DF) (Dorig : ℚ) (dec : Nat)
    (ds : List ℚ) (sheets : List (SheetKey × DF)) (S : Finset ℚ)
    (hs : ∀ e, hasKey sheets (SheetKey.dia e) = decide (e ∈ S)) :
    (ds.foldl (sheetStep dfOrig Dorig dec) sheets).length =
      sheets.length + (ds.toFinset \ S).card := by
  induction ds generalizing sheets S with
  | nil => simp
  | cons d t ih =>
      rw [List.foldl_cons]
      have hs' : ∀ e, hasKey (sheetStep dfOrig Dorig dec sheets d)
          (SheetKey.dia e) = decide (e ∈ insert d S) := by
        intro e
        rw [hasKey_sheetStep, hs e]
        by_cases he : e = d
        · subst he; simp
        · simp [Finset.mem_insert, he, Ne.symm he]
      rw [ih (sheetStep dfOrig Dorig dec sheets d) (insert d S) hs',
        length_sheetStep, List.toFinset_cons, hs d]
      by_cases hd : d ∈ S
      · simp only [hd, decide_True, if_true]
        rw [Finset.insert_eq_self.mpr hd, Finset.insert_sdiff_of_mem _ hd]
        omega
      · simp only [hd, decide_False, Bool.false_eq_true, if_false]
        rw [Finset.insert_sdiff_of_not_mem _ hd, Finset.sdiff_insert,
          card_insert_erase]
        omega

theorem keys_dfRound (dec : Nat) (df : DF) :
    (dfRound dec df).map Prod.fst = df.map Prod.fst := by
  rw [dfRound, List.map_map]
  rfl

theorem keys_selectCols (df : DF) (cols : List ColKey) :
    (selectCols df cols).map Prod.fst = cols := by
  rw [selectCols, List.map_map]
  exact List.map_id cols

theorem length_wideCols_aux (ds : List ℚ) (acc : List ColKey) :
    (ds.foldl
      (fun acc D => acc ++ [ColKey.flowD D, ColKey.headD D, ColKey.powerD D])
      acc).length = acc.length + 3 * ds.length := by
  induction ds generalizing acc with
  | nil => simp
  | cons d t ih =>
      rw [List.foldl_cons, ih]
      simp only [List.length_append, List.length_cons, List.length_nil]
      omega

/-- **C7** (amended, per variant) — For a target list with duplicate
diameters: in `app_streamlit.py`, the wide download re-selects the
conversion frame with a column list holding one entry per occurrence
(`df_out = df_out[cols]`), so each occurrence — duplicates included —
yields its own (identical) result column group, in input order, and
the number of groups equals the length of the target list.  In
`app_streamlit1.py` the output is written without that re-selection:
a duplicated diameter produces the same column names / sheet name and
overwrites the earlier occurrence, so its single-sheet wide output
holds one column group per *distinct* diameter, and its per-diameter
workbook holds the `original` sheet plus one sheet per *distinct*
diameter — not one per occurrence. -/
theorem C7_distinct_column_groups (f h p : List FVal) (df dfOrig dfOut : DF)
    (Dorig : ℚ) (ds : List ℚ) (dec : Nat) :
    (wide_download df Dorig ds).map Prod.fst = wideCols ds ∧
    (wide_download df Dorig ds).length = 3 + 3 * ds.length ∧
    (build_excel_bytes dfOrig
        (apply_affinity (mkBaselineDF f h p) Dorig ds) Dorig ds false
        dec).map (fun sh => (sh.1, sh.2.length)) =
      [(SheetKey.converted, 3 + 3 * ds.toFinset.card)] ∧
    (build_excel_bytes dfOrig dfOut Dorig ds true dec).length =
      1 + ds.toFinset.card := by
  refine ⟨?_, ?_, ?_, ?_⟩
  · rw [wide_download, keys_dfRound, keys_selectCols]
  · simp only [wide_download, dfRound, selectCols, List.length_map]
    rw [wideCols, length_wideCols_aux]
    simp
  · rw [show build_excel_bytes dfOrig
        (apply_affinity (mkBaselineDF f h p) Dorig ds) Dorig ds false dec =
        [(SheetKey.converted,
          dfRound dec (apply_affinity (mkBaselineDF f h p) Dorig ds))] from
      rfl]
    simp only [List.map_cons, List.map_nil]
    have hlen : (dfRound dec
        (apply_affinity (mkBaselineDF f h p) Dorig ds)).length =
        3 + 3 * ds.toFinset.card := by
      simp only [dfRound, List.length_map, apply_affinity]
      rw [fold_affStep_length Dorig ds (mkBaselineDF f h p) ∅
        (fun e => by simp [hasKey, mkBaselineDF])
        (fun e => by simp [hasKey, mkBaselineDF])
        (fun e => by simp [hasKey, mkBaselineDF])]
      rw [Finset.sdiff_empty]
      simp [mkBaselineDF]
    rw [hlen]
  · simp only [build_excel_bytes, if_true]
    rw [fold_sheetStep_length dfOrig Dorig dec ds
      [(SheetKey.original, dfRound dec dfOrig)] ∅
      (fun e => by simp [hasKey])]
    rw [Finset.sdiff_empty]
    simp

/-- Counterexample to C7 as stated, on `app_streamlit1.py`'s
`build_excel_bytes` (a cited source of the claim), whose output is
written without any re-selection: for the duplicate target list
`[1, 1]` (length 2) the single-sheet wide output has `3 + 3·1 = 6`
columns, not the claimed `3 + 3·2 = 9`, and the per-sheet workbook has
`1 + 1 = 2` sheets, not the claimed `1 + 2 = 3` — the second
occurrence overwrote the first instead of producing its own column
group / sheet. -/
theorem C7_counterexample :
    ((build_excel_bytes (mkBaselineDF [FVal.fin 1] [FVal.fin 2] [FVal.fin 3])
        (apply_affinity (mkBaselineDF [FVal.fin 1] [FVal.fin 2] [FVal.fin 3])
          2 [1, 1]) 2 [1, 1] false 0).map (fun sh => (sh.1, sh.2.length))) =
      [(SheetKey.converted, 6)] ∧
    ¬ (6 = 3 + 3 * 2) ∧
    (build_excel_bytes (mkBaselineDF [FVal.fin 1] [FVal.fin 2] [FVal.fin 3])
        (mkBaselineDF [FVal.fin 1] [FVal.fin 2] [FVal.fin 3]) 2 [1, 1] true
        0).length = 2 ∧
    ¬ ((build_excel_bytes (mkBaselineDF [FVal.fin 1] [FVal.fin 2] [FVal.fin 3])
        (mkBaselineDF [FVal.fin 1] [FVal.fin 2] [FVal.fin 3]) 2 [1, 1] true
        0).length = 1 + 2) :=
  ⟨rfl, by decide, rfl, by decide⟩

/-- **C4** (amended) — The address parser collects every alphabetic
character (which must form a single letter) and every digit character
of the address, wherever they occur: `"D1"` resolves to
(row 0, column 3) and `"B10"` to (row 9, column 1) as claimed, but
`"1D"` also parses — to (row 0, column 3), the same as `"D1"` — rather
than yielding Unset.  Addresses that fail this parse (such as `""`),
and parsed addresses whose position is rejected by the grid lookup,
yield Unset without raising, as does an absent address. -/
theorem C4_cell_address :
    parseAddr "D1" = some (0, 3) ∧
    parseAddr "B10" = some (9, 1) ∧
    parseAddr "1D" = some (0, 3) ∧
    parseAddr "" = none ∧
    (∀ (g : Grid) (s : String), parseAddr s = none →
      readOrig g (some s) = none) ∧
    (∀ (g : Grid) (s : String) (r c : Int), parseAddr s = some (r, c) →
      g.iat r c = none → readOrig g (some s) = none) ∧
    (∀ g : Grid, readOrig g none = none) := by
  refine ⟨by decide, by decide, by decide, by decide, ?_, ?_, fun g => rfl⟩
  · intro g s hps
    unfold readOrig
    by_cases hs : s = ""
    · simp [hs]
    · simp [hs, hps]
  · intro g s r c hps hiat
    unfold readOrig
    by_cases hs : s = ""
    · simp [hs]
    · simp [hs, hps, hiat]

/-- Witness for C4 on an unparseable address and an out-of-range one. -/
theorem C4_cell_address_witness :
    parseAddr "!!" = none ∧ readOrig G4 (some "!!") = none ∧
    parseAddr "Z9" = some (8, 25) ∧ G4.iat 8 25 = none ∧
    readOrig G4 (some "Z9") = none := by
  refine ⟨by decide, C4_cell_address.2.2.2.2.1 G4 "!!" (by decide), by decide,
    by decide, C4_cell_address.2.2.2.2.2.1 G4 "Z9" 8 25 (by decide) (by decide)⟩

/-- Counterexample to C4 as stated: `"1D"` does not yield Unset — it
parses to (row 0, column 3) by character filtering, and on a grid with
the number 7 in cell D1 the original diameter resolves to 7. -/
theorem C4_counterexample :
    parseAddr "1D" = some (0, 3) ∧ readOrig G4 (some "1D") = some 7 ∧
    readOrig G4 (some "1D") ≠ none := by
  refine ⟨by decide, by decide, by decide⟩

/-- **C3** (amended) — In auto-detect mode each of the three columns is
scanned from row 1 downward collecting the values of every non-blank
cell through the end of the grid (a blank cell is *skipped*, not a
stopping point; a non-float-parseable text cell anywhere in a column
fails the whole read); the three collected sequences are truncated to
`n`, the minimum of their lengths, so the assembled frame holds exactly
`n` samples, the first `n` collected entries of each column.  In
particular, collected lengths 5/3/4 give exactly 3 samples. -/
theorem C3_auto_detect (g : Grid) (flows heads powers : List FVal)
    (h3 : 3 ≤ g.ncols)
    (hf : astypeFloat (dropna ((g.col 0).drop 1)) = Except.ok flows)
    (hh : astypeFloat (dropna ((g.col 1).drop 1)) = Except.ok heads)
    (hp : astypeFloat (dropna ((g.col 2).drop 1)) = Except.ok powers) :
    readAutoCols g = Except.ok
      [(ColKey.flowOrig,
        flows.take (min flows.length (min heads.length powers.length))),
       (ColKey.headOrig,
        heads.take (min flows.length (min heads.length powers.length))),
       (ColKey.powerOrigKW,
        powers.take (min flows.length (min heads.length powers.length)))] ∧
    (flows.take (min flows.length (min heads.length powers.length))).length =
      min flows.length (min heads.length powers.length) ∧
    (heads.take (min flows.length (min heads.length powers.length))).length =
      min flows.length (min heads.length powers.length) ∧
    (powers.take (min flows.length (min heads.length powers.length))).length =
      min flows.length (min heads.length powers.length) := by
  have hng : ¬ (g.ncols < 3) := by omega
  refine ⟨?_, ?_, ?_, ?_⟩
  · unfold readAutoCols
    rw [if_neg hng, hf, hh, hp]
  · simp only [List.length_take]
    omega
  · simp only [List.length_take]
    omega
  · simp only [List.length_take]
    omega

/-- Witness for C3: on the 5/3/4 grid the reader returns exactly 3
samples, taken from the first 3 data rows of each column. -/
theorem C3_auto_detect_witness :
    readAutoCols G534 = Except.ok
      [(ColKey.flowOrig, [FVal.fin 1, FVal.fin 2, FVal.fin 3]),
       (ColKey.headOrig, [FVal.fin 10, FVal.fin 20, FVal.fin 30]),
       (ColKey.powerOrigKW, [FVal.fin 5, FVal.fin 6, FVal.fin 7])] := by
  have h := C3_auto_detect G534
    [FVal.fin 1, FVal.fin 2, FVal.fin 3, FVal.fin 4, FVal.fin 5]
    [FVal.fin 10, FVal.fin 20, FVal.fin 30]
    [FVal.fin 5, FVal.fin 6, FVal.fin 7, FVal.fin 8]
    (by decide) rfl rfl rfl
  exact h.1

/-- Counterexample to C3 as stated: on a grid whose flow column is
`1, blank, 3` (with full head and power columns), scanning "until a
blank cell" would collect only `[1]` and predict exactly 1 sample, but
the reader skips the blank and returns 2 samples — the second pairing
flow from row 3 with head/power from row 2. -/
theorem C3_counterexample :
    readAutoCols G3 = Except.ok
      [(ColKey.flowOrig, [FVal.fin 1, FVal.fin 3]),
       (ColKey.headOrig, [FVal.fin 10, FVal.fin 20]),
       (ColKey.powerOrigKW, [FVal.fin 5, FVal.fin 6])] ∧
    min (scanUntilBlank ((G3.col 0).drop 1)).length
      (min (scanUntilBlank ((G3.col 1).drop 1)).length
        (scanUntilBlank ((G3.col 2).drop 1)).length) = 1 ∧
    (2 : Nat) ≠ 1 :=
  ⟨rfl, rfl, by decide⟩

/-!
## `astype(float)` lemmas
-/

theorem astype_error_of_mem (l : List Cell) (hm : Cell.str none ∈ l) :
    ∃ e, astypeFloat l = Except.error e := by
  induction l with
  | nil => cases hm
  | cons c t ih =>
      rcases List.mem_cons.mp hm with rfl | hmem
      · refine ⟨"could not convert string to float", ?_⟩
        cases ht : astypeFloat t <;> simp [astypeFloat, cellToFloat, ht]
      · obtain ⟨e, he⟩ := ih hmem
        cases hc : cellToFloat c with
        | error e2 => exact ⟨e2, by simp [astypeFloat, hc, he]⟩
        | ok v => exact ⟨e, by simp [astypeFloat, hc, he]⟩

theorem astype_blank_nan (l : List Cell) (vals : List FVal) (i : Nat)
    (hok : astypeFloat l = Except.ok vals) (hb : l[i]? = some Cell.blank) :
    vals[i]? = some FVal.nan := by
  induction l generalizing vals i with
  | nil => simp at hb
  | cons c t ih =>
      cases hc : cellToFloat c with
      | error e => simp [astypeFloat, hc] at hok
      | ok v =>
          cases ht : astypeFloat t with
          | error e => simp [astypeFloat, hc, ht] at hok
          | ok vt =>
              have hv : v :: vt = vals := by
                simpa [astypeFloat, hc, ht] using hok
              subst hv
              cases i with
              | zero =>
                  have hcb : c = Cell.blank := by simpa using hb
                  subst hcb
                  have hvn : v = FVal.nan := by
                    simpa [cellToFloat] using hc.symm
                  simp [hvn]
              | succ n =>
                  have hb' : t[n]? = some Cell.blank := by simpa using hb
                  simpa using ih vt n ht hb'

/-- **C5** (amended) — In fixed-range mode the reader takes the rows
with indices 1–5 inclusive of each of the three columns (exactly 5 rows
whenever the grid has at least 6 rows); a non-float-parseable *text*
cell in that range fails the read with an error and no frame is
produced, but a *blank* cell does not fail the read — `astype(float)`
carries it through as NaN into the assembled frame. -/
theorem C5_fixed_range (g : Grid) (h3 : 3 ≤ g.ncols) :
    (∀ flows heads powers,
      astypeFloat (((g.col 0).drop 1).take 5) = Except.ok flows →
      astypeFloat (((g.col 1).drop 1).take 5) = Except.ok heads →
      astypeFloat (((g.col 2).drop 1).take 5) = Except.ok powers →
      readFixedCols g = Except.ok
        [(ColKey.flowOrig, flows), (ColKey.headOrig, heads),
         (ColKey.powerOrigKW, powers)]) ∧
    ((Cell.str none ∈ ((g.col 0).drop 1).take 5 ∨
      Cell.str none ∈ ((g.col 1).drop 1).take 5 ∨
      Cell.str none ∈ ((g.col 2).drop 1).take 5) →
      ∃ e, readFixedCols g = Except.error e) ∧
    (6 ≤ g.nrows → (((g.col 0).drop 1).take 5).length = 5) ∧
    (∀ (cells : List Cell) (vals : List FVal) (i : Nat),
      astypeFloat cells = Except.ok vals → cells[i]? = some Cell.blank →
      vals[i]? = some FVal.nan) := by
  have hng : ¬ (g.ncols < 3) := by omega
  refine ⟨?_, ?_, ?_, fun cells vals i => astype_blank_nan cells vals i⟩
  · intro flows heads powers hf hh hp
    unfold readFixedCols
    rw [if_neg hng, hf, hh, hp]
  · rintro (hm | hm | hm)
    · obtain ⟨e, he⟩ := astype_error_of_mem _ hm
      exact ⟨e, by unfold readFixedCols; rw [if_neg hng, he]⟩
    · cases h0 : astypeFloat (((g.col 0).drop 1).take 5) with
      | error e0 => exact ⟨e0, by unfold readFixedCols; rw [if_neg hng, h0]⟩
      | ok f0 =>
          obtain ⟨e, he⟩ := astype_error_of_mem _ hm
          exact ⟨e, by unfold readFixedCols; rw [if_neg hng, h0, he]⟩
    · cases h0 : astypeFloat (((g.col 0).drop 1).take 5) with
      | error e0 => exact ⟨e0, by unfold readFixedCols; rw [if_neg hng, h0]⟩
      | ok f0 =>
          cases h1 : astypeFloat (((g.col 1).drop 1).take 5) with
          | error e1 =>
              exact ⟨e1, by unfold readFixedCols; rw [if_neg hng, h0, h1]⟩
          | ok f1 =>
              obtain ⟨e, he⟩ := astype_error_of_mem _ hm
              exact ⟨e, by unfold readFixedCols; rw [if_neg hng, h0, h1, he]⟩
  · intro h6
    have hcl : (g.col 0).length = g.nrows := by simp [Grid.col]
    simp only [List.length_take, List.length_drop, hcl]
    omega

/-- Witness for C5 on the six-row grid `G5` (blank at row 2, col 0):
five rows are read and the blank lands in the frame as NaN. -/
theorem C5_fixed_range_witness :
    readFixedCols G5 = Except.ok
      [(ColKey.flowOrig,
        [FVal.fin 1, FVal.nan, FVal.fin 3, FVal.fin 4, FVal.fin 5]),
       (ColKey.headOrig,
        [FVal.fin 10, FVal.fin 20, FVal.fin 30, FVal.fin 40, FVal.fin 50]),
       (ColKey.powerOrigKW,
        [FVal.fin 5, FVal.fin 6, FVal.fin 7, FVal.fin 8, FVal.fin 9])] :=
  (C5_fixed_range G5 (by decide)).1
    [FVal.fin 1, FVal.nan, FVal.fin 3, FVal.fin 4, FVal.fin 5]
    [FVal.fin 10, FVal.fin 20, FVal.fin 30, FVal.fin 40, FVal.fin 50]
    [FVal.fin 5, FVal.fin 6, FVal.fin 7, FVal.fin 8, FVal.fin 9]
    rfl rfl rfl

/-- Counterexample to C5 as stated: `G5` has a blank cell inside the
fixed range (row 2, column 0), yet the read *succeeds*, producing a
frame containing NaN — it does not fail with a ReadError. -/
theorem C5_counterexample :
    read_uploaded_excel G5 false none = Except.ok
      ([(ColKey.flowOrig,
         [FVal.fin 1, FVal.nan, FVal.fin 3, FVal.fin 4, FVal.fin 5]),
        (ColKey.headOrig,
         [FVal.fin 10, FVal.fin 20, FVal.fin 30, FVal.fin 40, FVal.fin 50]),
        (ColKey.powerOrigKW,
         [FVal.fin 5, FVal.fin 6, FVal.fin 7, FVal.fin 8, FVal.fin 9])],
       none) ∧
    Cell.blank ∈ ((G5.col 0).drop 1).take 5 ∧
    (∀ e, read_uploaded_excel G5 false none ≠ Except.error e) :=
  ⟨rfl, by decide, fun e h => nomatch h⟩

/-!
## Grid decomposition lemmas
-/

theorem col_cons (r0 : List Cell) (rest : List (List Cell)) (c : Nat) :
    (Grid.mk (r0 :: rest)).col c =
      (r0.getD c Cell.blank) ::
        (List.range rest.length).map
          (fun r => ((rest.getD r []).getD c Cell.blank)) := by
  simp only [Grid.col, Grid.nrows, Grid.cellAt, List.length_cons,
    List.range_succ_eq_map, List.map_cons, List.map_map]
  rfl

theorem col_cons_drop (r0 : List Cell) (rest : List (List Cell)) (c : Nat) :
    ((Grid.mk (r0 :: rest)).col c).drop 1 =
      (List.range rest.length).map
        (fun r => ((rest.getD r []).getD c Cell.blank)) := by
  rw [col_cons]
  rfl

theorem ncols_cons_eq (r0 r0' : List Cell) (rest : List (List Cell))
    (hlen : r0.length = r0'.length) :
    (Grid.mk (r0 :: rest)).ncols = (Grid.mk (r0' :: rest)).ncols := by
  simp [Grid.ncols, hlen]

theorem astype_num_cons (a : ℚ) (l : List Cell) (vs : List FVal)
    (hok : astypeFloat (Cell.num a :: l) = Except.ok vs) :
    ∃ vt, astypeFloat l = Except.ok vt ∧ vs = FVal.fin a :: vt := by
  cases ht : astypeFloat l with
  | error e => simp [astypeFloat, cellToFloat, ht] at hok
  | ok vt =>
      have hv : FVal.fin a :: vt = vs := by
        simpa [astypeFloat, cellToFloat, ht] using hok
      exact ⟨vt, rfl, hv.symm⟩

/-- **C6** (amended) — In the `app_streamlit.py` / `app_streamlit1.py`
reader (both detection modes), data is taken from columns 0/1/2
beginning at row index 1, and the values of row 0 are never data: the
assembled frame is invariant under replacing row 0 by any other row of
the same length.  In the `app_streamlit3.py` upload branch, however,
reading starts at row index 0, so a numeric row 0 becomes the first
sample. -/
theorem C6_row_zero (r0 r0' : List Cell) (rest : List (List Cell))
    (hlen : r0.length = r0'.length) :
    readAutoCols (Grid.mk (r0 :: rest)) =
      readAutoCols (Grid.mk (r0' :: rest)) ∧
    readFixedCols (Grid.mk (r0 :: rest)) =
      readFixedCols (Grid.mk (r0' :: rest)) ∧
    (∀ (a b c : ℚ) (df : DF),
      r0.getD 0 Cell.blank = Cell.num a →
      r0.getD 1 Cell.blank = Cell.num b →
      r0.getD 2 Cell.blank = Cell.num c →
      readExcel3 (Grid.mk (r0 :: rest)) = Except.ok df →
      (dfGet df ColKey.flowInput)[0]? = some (FVal.fin a) ∧
      (dfGet df ColKey.headM)[0]? = some (FVal.fin b) ∧
      (dfGet df ColKey.powerInputKW)[0]? = some (FVal.fin c)) := by
  refine ⟨?_, ?_, ?_⟩
  · unfold readAutoCols
    rw [ncols_cons_eq r0 r0' rest hlen, col_cons_drop r0 rest 0,
      col_cons_drop r0' rest 0, col_cons_drop r0 rest 1,
      col_cons_drop r0' rest 1, col_cons_drop r0 rest 2,
      col_cons_drop r0' rest 2]
  · unfold readFixedCols
    rw [ncols_cons_eq r0 r0' rest hlen, col_cons_drop r0 rest 0,
      col_cons_drop r0' rest 0, col_cons_drop r0 rest 1,
      col_cons_drop r0' rest 1, col_cons_drop r0 rest 2,
      col_cons_drop r0' rest 2]
  · intro a b c df h0 h1 h2 hdf
    unfold readExcel3 at hdf
    by_cases hnc : (Grid.mk (r0 :: rest)).ncols < 3
    · rw [if_pos hnc] at hdf; cases hdf
    · rw [if_neg hnc] at hdf
      have hc0 : dropna ((Grid.mk (r0 :: rest)).col 0) =
          Cell.num a :: dropna ((List.range rest.length).map
            (fun r => ((rest.getD r []).getD 0 Cell.blank))) := by
        rw [col_cons, h0]; simp [dropna]
      have hc1 : dropna ((Grid.mk (r0 :: rest)).col 1) =
          Cell.num b :: dropna ((List.range rest.length).map
            (fun r => ((rest.getD r []).getD 1 Cell.blank))) := by
        rw [col_cons, h1]; simp [dropna]
      have hc2 : dropna ((Grid.mk (r0 :: rest)).col 2) =
          Cell.num c :: dropna ((List.range rest.length).map
            (fun r => ((rest.getD r []).getD 2 Cell.blank))) := by
        rw [col_cons, h2]; simp [dropna]
      rw [hc0, hc1, hc2] at hdf
      cases hfa : astypeFloat (Cell.num a :: dropna ((List.range rest.length).map
          (fun r => ((rest.getD r []).getD 0 Cell.blank)))) with
      | error e => rw [hfa] at hdf; cases hdf
      | ok flows =>
          rw [hfa] at hdf
          cases hfb : astypeFloat (Cell.num b :: dropna
              ((List.range rest.length).map
                (fun r => ((rest.getD r []).getD 1 Cell.blank)))) with
          | error e => rw [hfb] at hdf; cases hdf
          | ok heads =>
              rw [hfb] at hdf
              cases hfc : astypeFloat (Cell.num c :: dropna
                  ((List.range rest.length).map
                    (fun r => ((rest.getD r []).getD 2 Cell.blank)))) with
              | error e => rw [hfc] at hdf; cases hdf
              | ok powers =>
                  rw [hfc] at hdf
                  injection hdf with hdf2
                  subst hdf2
                  obtain ⟨vtf, hvtf, rfl⟩ := astype_num_cons a _ flows hfa
                  obtain ⟨vth, hvth, rfl⟩ := astype_num_cons b _ heads hfb
                  obtain ⟨vtp, hvtp, rfl⟩ := astype_num_cons c _ powers hfc
                  have hn : 0 < min (FVal.fin a :: vtf).length
                      (min (FVal.fin b :: vth).length
                        (FVal.fin c :: vtp).length) := by
                    simp
                  refine ⟨?_, ?_, ?_⟩
                  · rw [dfGet_assign_ne _ ColKey.effPct ColKey.flowInput _
                      (by simp)]
                    have : dfGet [(ColKey.flowInput, (FVal.fin a :: vtf).take
                        (min (FVal.fin a :: vtf).length
                          (min (FVal.fin b :: vth).length
                            (FVal.fin c :: vtp).length))),
                        (ColKey.headM, (FVal.fin b :: vth).take
                          (min (FVal.fin a :: vtf).length
                            (min (FVal.fin b :: vth).length
                              (FVal.fin c :: vtp).length))),
                        (ColKey.powerInputKW, (FVal.fin c :: vtp).take
                          (min (FVal.fin a :: vtf).length
                            (min (FVal.fin b :: vth).length
                              (FVal.fin c :: vtp).length)))]
                        ColKey.flowInput = (FVal.fin a :: vtf).take
                        (min (FVal.fin a :: vtf).length
                          (min (FVal.fin b :: vth).length
                            (FVal.fin c :: vtp).length)) := rfl
                    rw [this, List.getElem?_take_of_lt hn]
                    simp
                  · rw [dfGet_assign_ne _ ColKey.effPct ColKey.headM _
                      (by simp)]
                    have : dfGet [(ColKey.flowInput, (FVal.fin a :: vtf).take
                        (min (FVal.fin a :: vtf).length
                          (min (FVal.fin b :: vth).length
                            (FVal.fin c :: vtp).length))),
                        (ColKey.headM, (FVal.fin b :: vth).take
                          (min (FVal.fin a :: vtf).length
                            (min (FVal.fin b :: vth).length
                              (FVal.fin c :: vtp).length))),
                        (ColKey.powerInputKW, (FVal.fin c :: vtp).take
                          (min (FVal.fin a :: vtf).length
                            (min (FVal.fin b :: vth).length
                              (FVal.fin c :: vtp).length)))]
                        ColKey.headM = (FVal.fin b :: vth).take
                        (min (FVal.fin a :: vtf).length
                          (min (FVal.fin b :: vth).length
                            (FVal.fin c :: vtp).length)) := rfl
                    rw [this, List.getElem?_take_of_lt hn]
                    simp
                  · rw [dfGet_assign_ne _ ColKey.effPct ColKey.powerInputKW _
                      (by simp)]
                    have : dfGet [(ColKey.flowInput, (FVal.fin a :: vtf).take
                        (min (FVal.fin a :: vtf).length
                          (min (FVal.fin b :: vth).length
                            (FVal.fin c :: vtp).length))),
                        (ColKey.headM, (FVal.fin b :: vth).take
                          (min (FVal.fin a :: vtf).length
                            (min (FVal.fin b :: vth).length
                              (FVal.fin c :: vtp).length))),
                        (ColKey.powerInputKW, (FVal.fin c :: vtp).take
                          (min (FVal.fin a :: vtf).length
                            (min (FVal.fin b :: vth).length
                              (FVal.fin c :: vtp).length)))]
                        ColKey.powerInputKW = (FVal.fin c :: vtp).take
                        (min (FVal.fin a :: vtf).length
                          (min (FVal.fin b :: vth).length
                            (FVal.fin c :: vtp).length)) := rfl
                    rw [this, List.getElem?_take_of_lt hn]
                    simp

/-- Witness for C6: replacing a numeric header row by a blank row of
the same length does not change the variant-1/2 auto-detect result, and
on the all-numeric two-row grid the variant-3 reader's first sample is
row 0's values. -/
theorem C6_row_zero_witness :
    readAutoCols (Grid.mk ([Cell.num 99, Cell.num 98, Cell.num 97] :: restW)) =
      readAutoCols (Grid.mk ([Cell.blank, Cell.blank, Cell.blank] :: restW)) ∧
    (dfGet [(ColKey.flowInput, [FVal.fin 1, FVal.fin 4]),
       (ColKey.headM, [FVal.fin 2, FVal.fin 5]),
       (ColKey.powerInputKW, [FVal.fin 3, FVal.fin 6]),
       (ColKey.effPct,
        effCol [FVal.fin 1, FVal.fin 4] [FVal.fin 2, FVal.fin 5]
          [FVal.fin 3, FVal.fin 6])] ColKey.flowInput)[0]? =
      some (FVal.fin 1) := by
  constructor
  · exact (C6_row_zero [Cell.num 99, Cell.num 98, Cell.num 97]
      [Cell.blank, Cell.blank, Cell.blank] restW rfl).1
  · exact ((C6_row_zero [Cell.num 1, Cell.num 2, Cell.num 3]
      [Cell.blank, Cell.blank, Cell.blank]
      [[Cell.num 4, Cell.num 5, Cell.num 6]] rfl).2.2 1 2 3
      [(ColKey.flowInput, [FVal.fin 1, FVal.fin 4]),
       (ColKey.headM, [FVal.fin 2, FVal.fin 5]),
       (ColKey.powerInputKW, [FVal.fin 3, FVal.fin 6]),
       (ColKey.effPct,
        effCol [FVal.fin 1, FVal.fin 4] [FVal.fin 2, FVal.fin 5]
          [FVal.fin 3, FVal.fin 6])] rfl rfl rfl rfl).1

/-- Counterexample to C6 as stated: on the all-numeric grid `G6` the
`app_streamlit3.py` upload reader takes the values of row index 0
(`1, 2, 3`) as the first data sample — row 0 is not skipped in that
variant. -/
theorem C6_counterexample :
    readExcel3 G6 = Except.ok
      [(ColKey.flowInput, [FVal.fin 1, FVal.fin 4]),
       (ColKey.headM, [FVal.fin 2, FVal.fin 5]),
       (ColKey.powerInputKW, [FVal.fin 3, FVal.fin 6]),
       (ColKey.effPct,
        effCol [FVal.fin 1, FVal.fin 4] [FVal.fin 2, FVal.fin 5]
          [FVal.fin 3, FVal.fin 6])] ∧
    G6.cellAt 0 0 = Cell.num 1 ∧ G6.cellAt 0 1 = Cell.num 2 ∧
    G6.cellAt 0 2 = Cell.num 3 :=
  ⟨rfl, rfl, rfl, rfl⟩
